import Mathlib

/-!
# libfs/fs.c: a FAT-based file system over a block device

A shallow embedding of `src/libfs/fs.c`.  The process-wide variables `sb`, `fat`,
`root` and `openedFiles` (together with the contents of the block device) form
the record `FS`; every `fs_*` function of the source becomes a function on `FS`.

Conventions of the embedding:

* a byte is a `Nat` below 256, a buffer is a function from byte position to byte;
* a C `int` is an `Int`, wrapped by `toInt32` where the source converts or may
  overflow; `uint32_t` and `uint16_t` are `Nat`s wrapped by `toUInt32`;
* arrays are total functions of the index; an access the source can make outside
  the array (an index that comes from data) is an explicit `Res.fault`;
* a `while` loop whose trip count depends on data runs on fuel, with
  `Res.hang` for a loop that cannot leave;
* a `const char *` argument is the list of bytes it points to; the C string it
  denotes is `cstr` of that list (the bytes before the first zero);
* `strcmp` reads memory: a name field without a terminator is read on into the
  members and array elements that follow it in the packed structs, and a read
  that would leave the array is a `Res.fault`.
-/

namespace FatFs

/-! ## Constants (fs.c lines 14-18) -/

def BLOCK_BYTES : Nat := 4096

def NUM_ROOTDIR_ENTRIES : Nat := 128

/-- The eight characters of the string "ECS150FS". -/
def SIGNATURE_CHECK : List Nat := [69, 67, 83, 49, 53, 48, 70, 83]

def FILENAME_MAX_SIZE : Nat := 16

def MAX_OPEN_FILE_DESCRIPTORS : Nat := 32

/-- Bound on the number of iterations of a walk along FAT links.  Indices are
`uint16_t`, so a walk that has made 65536 steps without meeting `0xFFFF` has
visited some index twice and, the table being unchanged meanwhile, never ends. -/
def WALK_FUEL : Nat := 65536

/-! ## Outcomes -/

/-- Outcome of a call: it returns a value, it never returns (`hang`), or it
accesses memory outside an object (`fault`, undefined behaviour in C). -/
inductive Res (α : Type) where
  | ok (a : α)
  | hang
  | fault
deriving DecidableEq

/-- Sequencing of outcomes. -/
def Res.bind {α β : Type} (r : Res α) (f : α → Res β) : Res β :=
  match r with
  | .ok a => f a
  | .hang => .hang
  | .fault => .fault

/-- The value of an outcome, when the call returned. -/
def Res.val? {α : Type} (r : Res α) : Option α :=
  match r with
  | .ok a => some a
  | .hang => none
  | .fault => none

/-! ## Machine integers -/

/-- Conversion to a 32-bit `int` (two's complement wrap-around). -/
def toInt32 (x : Int) : Int := (x + 2147483648) % 4294967296 - 2147483648

/-- Conversion to `uint32_t`. -/
def toUInt32 (x : Int) : Nat := (x % 4294967296).toNat

/-! ## Data structures (fs.c lines 22-55) -/

/-- A memory buffer: the byte at each position. -/
abbrev Block := Nat → Nat

/-- The `struct superBlock`. -/
structure superBlock where
  signature : List Nat
  numBlocks : Nat
  rootIndex : Nat
  dataIndex : Nat
  numDBlocks : Nat
  numFBlocks : Nat
  unused : List Nat
deriving DecidableEq

/-- The `struct fileInfo`: `filename` holds the 16 raw bytes of the field. -/
structure fileInfo where
  filename : List Nat
  size : Nat
  firstIndex : Nat
  padding : List Nat
deriving DecidableEq

/-- The `struct fileDescriptor`: `filename` holds the 16 raw bytes of the field. -/
structure fileDescriptor where
  filename : List Nat
  offset : Int
deriving DecidableEq

/-- Modelled from the spec: the block device adapter (`disk.h`, not among the
sources): a device of `count` blocks of 4096 bytes, addressed by 0-based index. -/
structure Disk where
  count : Nat
  blocks : Nat → Block

/-- Modelled from the spec: `block_read(block, buf)` of the block device adapter
(not among the sources).  Copies the 4096 bytes of the block into `buf`; the
transfer fails (`none`, status -1) when the index is outside the device. -/
def block_read (d : Disk) (block : Nat) (buf : Block) : Option Block :=
  if block < d.count then some (fun p => if p < BLOCK_BYTES then d.blocks block p else buf p)
  else none

/-- Modelled from the spec: `block_write(block, buf)` of the block device
adapter (not among the sources).  Stores the first 4096 bytes of `buf` as the
block; the transfer fails (`none`, status -1) when the index is outside the device. -/
def block_write (d : Disk) (block : Nat) (buf : Block) : Option Disk :=
  if block < d.count then
    some { d with blocks := fun b => if b = block then
                              (fun p => if p < BLOCK_BYTES then buf p else d.blocks b p)
                            else d.blocks b }
  else none

/-- The mounted file system: the variables `sb`, `fat`, `root`, `openedFiles` of
fs.c and the device underneath.  `fat` has `2048 * sb.numFBlocks` entries. -/
structure FS where
  sb : superBlock
  fat : Nat → Nat
  root : Nat → fileInfo
  openedFiles : Nat → fileDescriptor
  disk : Disk

/-- Number of `uint16_t` entries of the array `fat` (`malloc` at line 106). -/
def FS.fatLen (st : FS) : Nat := (BLOCK_BYTES / 2) * st.sb.numFBlocks

/-! ## C strings -/

/-- The C string stored at the start of a byte sequence: the bytes before the
first zero.  For a 16-byte field this is the string at the field whenever the
field holds a terminator. -/
def cstr (s : List Nat) : List Nat := s.takeWhile (fun c => c != 0)

/-- The `strlen` of the string at the start of `s`. -/
def strlen (s : List Nat) : Nat := (cstr s).length

/-- Two byte sequences hold the same C string: the bytes before the first zero
agree.  A notion of the statements and proofs; the code compares with `strcmp`. -/
def sameName (a b : List Nat) : Bool := cstr a == cstr b

/-- The test `strcmp(a, b) == 0` from byte position `p` on.  `a` and `b` give
the bytes from each pointer on, and the first argument is the number of bytes
left before the end of the shorter of the two objects pointed into.  The
comparison stops at the first position where the bytes differ, or where both
are zero; `none` when it would read past an object before that. -/
def strcmp (a b : Block) : Nat → Nat → Option Bool
  | 0, _ => none
  | n + 1, p =>
    if a p ≠ b p then some false
    else if a p = 0 then some true
    else strcmp a b n (p + 1)

/-- The call `strcpy(dst, src)` into a 16-byte field `dst`: the characters of
`src` and a terminator, the later bytes of the field keeping their value.  A
17th byte (the terminator of a 16-character string) lands on the next member of
the struct, which both callers set to zero right after. -/
def strcpy (dst src : List Nat) : List Nat :=
  (cstr src ++ 0 :: dst.drop ((cstr src).length + 1)).take FILENAME_MAX_SIZE

/-- The call `strncpy(dst + dOff, src + sOff, n)`: byte `k < n` of the
destination receives byte `k` of the source as long as no zero byte came before
it, and zero afterwards (`strncpy` stops at a terminator and pads with zeros). -/
def strncpy (dst : Block) (dOff : Nat) (src : Block) (sOff : Nat) (n : Nat) : Block :=
  fun p =>
    if dOff ≤ p ∧ p < dOff + n then
      if ∀ j < p - dOff, src (sOff + j) ≠ 0 then src (sOff + (p - dOff)) else 0
    else dst p

/-- The test `filename[0] == 0` on a 16-byte field. -/
def isEmptyName (field : List Nat) : Bool := field.headD 0 == 0

/-- The assignment `filename[0] = 0` on a 16-byte field. -/
def clearName (field : List Nat) : List Nat := field.set 0 0

/-! ## On-disk layout (the packed structs, little-endian) -/

/-- The `uint16_t` stored at byte offset `off` of a buffer. -/
def le16 (b : Block) (off : Nat) : Nat := b off + 256 * b (off + 1)

/-- The `uint32_t` stored at byte offset `off` of a buffer. -/
def le32 (b : Block) (off : Nat) : Nat :=
  b off + 256 * b (off + 1) + 65536 * b (off + 2) + 16777216 * b (off + 3)

/-- Byte `k` of the little-endian representation of `v`. -/
def byteOf (v : Nat) (k : Nat) : Nat := v / 256 ^ k % 256

/-- The fields of `struct superBlock` in a 4096-byte buffer. -/
def decodeSuperBlock (b : Block) : superBlock :=
  { signature := (List.range 8).map b
    numBlocks := le16 b 8
    rootIndex := le16 b 10
    dataIndex := le16 b 12
    numDBlocks := le16 b 14
    numFBlocks := b 16
    unused := (List.range 4079).map (fun k => b (17 + k)) }

/-- The bytes of a `struct superBlock`. -/
def encodeSuperBlock (s : superBlock) : Block :=
  fun p =>
    if p < 8 then s.signature.getD p 0
    else if p < 10 then byteOf s.numBlocks (p - 8)
    else if p < 12 then byteOf s.rootIndex (p - 10)
    else if p < 14 then byteOf s.dataIndex (p - 12)
    else if p < 16 then byteOf s.numDBlocks (p - 14)
    else if p < 17 then s.numFBlocks
    else s.unused.getD (p - 17) 0

/-- The fields of `root->files[i]` in the 4096-byte buffer of the root directory
(32 bytes per entry). -/
def decodeFileInfo (b : Block) (i : Nat) : fileInfo :=
  { filename := (List.range 16).map (fun k => b (32 * i + k))
    size := le32 b (32 * i + 16)
    firstIndex := le16 b (32 * i + 20)
    padding := (List.range 10).map (fun k => b (32 * i + 22 + k)) }

/-- The bytes of a `struct rootDirectory`. -/
def encodeRoot (root : Nat → fileInfo) : Block :=
  fun p =>
    let e := root (p / 32)
    let k := p % 32
    if k < 16 then e.filename.getD k 0
    else if k < 20 then byteOf e.size (k - 16)
    else if k < 22 then byteOf e.firstIndex (k - 20)
    else e.padding.getD (k - 22) 0

/-- The bytes of the `i`-th block of the array `fat` (`fat + (BLOCK_BYTES / 2) * i`). -/
def encodeFatBlock (fat : Nat → Nat) (i : Nat) : Block :=
  fun p => byteOf (fat ((BLOCK_BYTES / 2) * i + p / 2)) (p % 2)

/-! ## Directory and descriptor lookups -/

/-- The bytes a `const char *filename` argument points to: the characters of
the string, then the terminator.  The object holds `strlen(filename) + 1`
bytes. -/
def argBytes (filename : List Nat) : Block := fun p => (cstr filename).getD p 0

/-- The bytes of the array `openedFiles`: 20 bytes per packed `struct
fileDescriptor`, the 16 bytes of the name and the `int offset` (two's
complement, little-endian). -/
def encodeDescriptors (openedFiles : Nat → fileDescriptor) : Block :=
  fun p =>
    let d := openedFiles (p / 20)
    let k := p % 20
    if k < 16 then d.filename.getD k 0
    else byteOf (toUInt32 d.offset) (k - 16)

/-- The bytes from `root->files[i].filename` on; the object `*root` (4096
bytes) ends `BLOCK_BYTES - 32 * i` bytes later. -/
def rootNameBytes (root : Nat → fileInfo) (i : Nat) : Block :=
  fun p => encodeRoot root (32 * i + p)

/-- The bytes from `openedFiles[i].filename` on; the array `openedFiles` (640
bytes) ends `20 * MAX_OPEN_FILE_DESCRIPTORS - 20 * i` bytes later. -/
def fdNameBytes (openedFiles : Nat → fileDescriptor) (i : Nat) : Block :=
  fun p => encodeDescriptors openedFiles (20 * i + p)

/-- A loop `for (i = 0; i < n; i++) if (strcmp(filename, tempname) == 0)
{ index = i; break; }`, where `cmp i` is the outcome of the comparison made at
`i`.  The loop passes the indices where the strings differ; at the first other
index it ends with that index, or faults when the comparison there reads past
an object.  `none` is the value -1. -/
def firstMatch (n : Nat) (cmp : Nat → Option Bool) : Res (Option Nat) :=
  match (List.range n).find? (fun i => cmp i != some false) with
  | none => .ok none
  | some i => if cmp i = some true then .ok (some i) else .fault

/-- The loop `for (i = 0; i < NUM_ROOTDIR_ENTRIES; i++) if (strcmp(filename,
root->files[i].filename) == 0) { fileIndex = i; break; }`; `name` gives the
bytes at `filename` and `len` the number of bytes up to the end of its object. -/
def findFile (root : Nat → fileInfo) (name : Block) (len : Nat) : Res (Option Nat) :=
  firstMatch NUM_ROOTDIR_ENTRIES
    (fun i => strcmp name (rootNameBytes root i) (min len (BLOCK_BYTES - 32 * i)) 0)

/-- The loop of lines 282-287 of `fs_delete`: `strcmp(filename,
openedFiles[i].filename)` over the 32 descriptor slots. -/
def findOpen (openedFiles : Nat → fileDescriptor) (name : Block) (len : Nat) :
    Res (Option Nat) :=
  firstMatch MAX_OPEN_FILE_DESCRIPTORS
    (fun i => strcmp name (fdNameBytes openedFiles i)
      (min len (20 * MAX_OPEN_FILE_DESCRIPTORS - 20 * i)) 0)

/-- The lookup of a file by the name of a `const char *filename` argument. -/
def findFileArg (root : Nat → fileInfo) (filename : List Nat) : Res (Option Nat) :=
  findFile root (argBytes filename) (strlen filename + 1)

/-- The lookup that opens `fs_stat`, `fs_lseek`, `fs_write` and `fs_read`:
`filename = (char*)openedFiles[fd].filename`, compared with every root entry. -/
def findFileFd (root : Nat → fileInfo) (openedFiles : Nat → fileDescriptor) (fd : Nat) :
    Res (Option Nat) :=
  findFile root (fdNameBytes openedFiles fd) (20 * MAX_OPEN_FILE_DESCRIPTORS - 20 * fd)

/-- The first root entry whose name field holds the string `filename`.  A
notion of the statements and proofs: it is what the lookup loop returns when
every comparison ends inside the 16 bytes of a name field. -/
def findName (root : Nat → fileInfo) (filename : List Nat) : Option Nat :=
  (List.range NUM_ROOTDIR_ENTRIES).find? (fun i => sameName filename (root i).filename)

/-- The loop of `fs_create` that finds the first root entry with an empty name. -/
def findFreeEntry (root : Nat → fileInfo) : Option Nat :=
  (List.range NUM_ROOTDIR_ENTRIES).find? (fun i => isEmptyName (root i).filename)

/-- The loop of `fs_open` that finds the first closed descriptor slot. -/
def findFreeFd (openedFiles : Nat → fileDescriptor) : Option Nat :=
  (List.range MAX_OPEN_FILE_DESCRIPTORS).find? (fun i => isEmptyName (openedFiles i).filename)

/-- The checks `fd < 0 || fd > MAX_OPEN_FILE_DESCRIPTORS - 1` and
`openedFiles[fd].filename[0] == 0` that open every descriptor operation. -/
def badFd (st : FS) (fd : Int) : Bool :=
  fd < 0 || fd > (MAX_OPEN_FILE_DESCRIPTORS : Int) - 1
    || isEmptyName (st.openedFiles fd.toNat).filename

/-! ## fs_mount and fs_umount (fs.c lines 59-160) -/

/-- The loop of lines 110-115: reads FAT block `i`, `i + 1`, ... (`k` of them) into
the array `fat`; `none` when a read fails. -/
def readFatLoop (d : Disk) : Nat → Nat → (Nat → Nat) → Option (Nat → Nat)
  | 0, _, fat => some fat
  | k + 1, i, fat =>
    match block_read d (1 + i) (fun _ => 0) with
    | none => none
    | some blk =>
      readFatLoop d k (i + 1)
        (fun j => if (BLOCK_BYTES / 2) * i ≤ j ∧ j < (BLOCK_BYTES / 2) * (i + 1)
                  then le16 blk (2 * (j - (BLOCK_BYTES / 2) * i)) else fat j)

/-- The function `fs_mount`.  `dev` is the disk image behind `diskname` (`none`
when `block_disk_open` fails); `openedFiles` is the descriptor table of the
process, which mounting leaves alone.  Returns the `int` result and, on
success, the mounted state. -/
def fs_mount (openedFiles : Nat → fileDescriptor) (dev : Option Disk) : Int × Option FS :=
  match dev with
  | none => (-1, none)
  | some d =>
    match block_read d 0 (fun _ => 0) with
    | none => (-1, none)
    | some b0 =>
      let sb := decodeSuperBlock b0
      if sb.signature ≠ SIGNATURE_CHECK then (-1, none)
      else if sb.numBlocks ≠ d.count then (-1, none)
      else
        let expectedFB : Nat :=
          if (sb.numDBlocks * 2) % 4096 > 0 then (sb.numDBlocks * 2) / 4096 + 1
          else (sb.numDBlocks * 2) / 4096
        if sb.numFBlocks ≠ expectedFB then (-1, none)
        else if sb.rootIndex ≠ 1 + sb.numFBlocks then (-1, none)
        else if sb.dataIndex ≠ 1 + sb.rootIndex then (-1, none)
        else if (sb.numDBlocks : Int) ≠ (sb.numBlocks : Int) - (sb.dataIndex : Int) then (-1, none)
        else
          match readFatLoop d sb.numFBlocks 0 (fun _ => 0) with
          | none => (-1, none)
          | some fat =>
            match block_read d sb.rootIndex (fun _ => 0) with
            | none => (-1, none)
            | some br =>
              (0, some { sb := sb, fat := fat, root := decodeFileInfo br,
                         openedFiles := openedFiles, disk := d })

/-- The loop of lines 137-142: writes FAT block `i`, `i + 1`, ... (`k` of them)
back; `none` when a write fails. -/
def writeFatLoop (fat : Nat → Nat) : Nat → Nat → Disk → Option Disk
  | 0, _, d => some d
  | k + 1, i, d =>
    match block_write d (1 + i) (encodeFatBlock fat i) with
    | none => none
    | some d1 => writeFatLoop fat k (i + 1) d1

/-- The function `fs_umount`: returns the `int` result and the device as the
call leaves it. -/
def fs_umount (st : FS) : Int × Disk :=
  match block_write st.disk 0 (encodeSuperBlock st.sb) with
  | none => (-1, st.disk)
  | some d0 =>
    match writeFatLoop st.fat st.sb.numFBlocks 0 d0 with
    | none => (-1, d0)
    | some d1 =>
      match block_write d1 st.sb.rootIndex (encodeRoot st.root) with
      | none => (-1, d1)
      | some d2 => (0, d2)

/-! ## Directory operations (fs.c lines 200-303) -/

/-- The function `fs_create`.  The duplicate check of lines 209-214 is the
lookup loop with `return -1` on a match; after the test of line 204 the name has
at most 16 characters, so each comparison ends within the first 17 bytes of a
32-byte entry and the loop never reads past the directory (`findFileArg_defined`).
The name is copied into the free entry (line 234) before the FAT is searched
(lines 238-245), so the failure return of line 248 keeps the entry written.
The reads `fat[i]` with `i < numDBlocks` are inside the array on every mounted
volume (see `fs_mount`). -/
def fs_create (st : FS) (filename : List Nat) : FS × Int :=
  if strlen filename > FILENAME_MAX_SIZE then (st, -1)
  else
    match findFileArg st.root filename with
    | .ok none =>
      match findFreeEntry st.root with
      | none => (st, -1)
      | some freeEntryIndex =>
        let e := st.root freeEntryIndex
        let root1 := Function.update st.root freeEntryIndex
          { e with filename := strcpy e.filename filename, size := 0 }
        match (List.range st.sb.numDBlocks).find? (fun i => st.fat i == 0) with
        | none => ({ st with root := root1 }, -1)
        | some freeFATIndex =>
          ({ st with
              fat := Function.update st.fat freeFATIndex 0xFFFF
              root := Function.update root1 freeEntryIndex
                { root1 freeEntryIndex with firstIndex := freeFATIndex } }, 0)
    | _ => (st, -1)

/-- The loop of lines 293-297 of `fs_delete`: `while (tempFATIndex != 0xFFFF)
{ temp = tempFATIndex; tempFATIndex = fat[tempFATIndex]; fat[temp] = 0; }`.
A visited entry becomes 0, so a walk that comes back to a visited entry moves to
entry 0 and stays there once entry 0 is visited: after `WALK_FUEL` steps a walk
that has not met `0xFFFF` never does. -/
def freeChain (fatLen : Nat) : Nat → Nat → (Nat → Nat) → Res (Nat → Nat)
  | 0, tempFATIndex, fat => if tempFATIndex = 0xFFFF then .ok fat else .hang
  | fuel + 1, tempFATIndex, fat =>
    if tempFATIndex = 0xFFFF then .ok fat
    else if tempFATIndex < fatLen then
      freeChain fatLen fuel (fat tempFATIndex) (Function.update fat tempFATIndex 0)
    else .fault

/-- The function `fs_delete`. -/
def fs_delete (st : FS) (filename : List Nat) : Res (FS × Int) :=
  (findFileArg st.root filename).bind fun found =>
    match found with
    | none => .ok (st, -1)
    | some fileIndex =>
      (findOpen st.openedFiles (argBytes filename) (strlen filename + 1)).bind fun held =>
        match held with
        | some _ => .ok (st, -1)
        | none =>
          (freeChain st.fatLen WALK_FUEL (st.root fileIndex).firstIndex st.fat).bind fun fat1 =>
            .ok ({ st with
                    fat := fat1
                    root := Function.update st.root fileIndex
                      { st.root fileIndex with
                        filename := clearName (st.root fileIndex).filename } },
                 0)

/-! ## Descriptor operations (fs.c lines 361-495) -/

/-- The function `fs_open`.  Line 404 writes `openedFiles[freeEntryIndex]` with
`freeEntryIndex` still -1 when no slot is closed: a fault.  The `strcpy` of
line 404 writes `strlen(filename) + 1` bytes: up to 20 of them stay inside the
slot (the bytes past the name land on `offset`, which line 405 sets to 0); a
longer name, which only a directory entry without a terminator can match, is
written past the slot: a fault. -/
def fs_open (st : FS) (filename : List Nat) : Res (FS × Int) :=
  let numOpened := (List.range MAX_OPEN_FILE_DESCRIPTORS).countP
    (fun i => !isEmptyName (st.openedFiles i).filename)
  if numOpened = MAX_OPEN_FILE_DESCRIPTORS then .ok (st, -1)
  else
    (findFileArg st.root filename).bind fun found =>
      match found with
      | none => .ok (st, -1)
      | some _ =>
        match findFreeFd st.openedFiles with
        | none => .fault
        | some freeEntryIndex =>
          if strlen filename + 1 > 20 then .fault
          else
            .ok ({ st with
                    openedFiles := Function.update st.openedFiles freeEntryIndex
                      { filename := strcpy (st.openedFiles freeEntryIndex).filename filename
                        offset := 0 } },
                 (freeEntryIndex : Int))

/-- The function `fs_close`. -/
def fs_close (st : FS) (fd : Int) : FS × Int :=
  if badFd st fd then (st, -1)
  else
    ({ st with
        openedFiles := Function.update st.openedFiles fd.toNat
          { filename := clearName (st.openedFiles fd.toNat).filename, offset := 0 } }, 0)

/-- The function `fs_stat`.  When the lookup ends with `fileIndex == -1`, line
456 reads `root->files[-1]`: a fault. -/
def fs_stat (st : FS) (fd : Int) : Res Int :=
  if badFd st fd then .ok (-1)
  else
    (findFileFd st.root st.openedFiles fd.toNat).bind fun found =>
      match found with
      | none => .fault
      | some fileIndex => .ok (toInt32 (st.root fileIndex).size)

/-- The function `fs_lseek`; `offset` is a `size_t`. -/
def fs_lseek (st : FS) (fd : Int) (offset : Nat) : Res (FS × Int) :=
  if badFd st fd then .ok (st, -1)
  else
    (findFileFd st.root st.openedFiles fd.toNat).bind fun found =>
      match found with
      | none => .fault
      | some fileIndex =>
        if offset > (st.root fileIndex).size then .ok (st, -1)
        else
          .ok ({ st with
                  openedFiles := Function.update st.openedFiles fd.toNat
                    { st.openedFiles fd.toNat with offset := toInt32 offset } }, 0)

/-! ## Data transfer (fs.c lines 497-714) -/

/-- The loop of lines 543-547 of `fs_write`: `while (currentIndex != 0xFFFF)
{ lastIndex = currentIndex; blocksHave++; currentIndex = fat[currentIndex]; }`.
Returns `(lastIndex, blocksHave)`. -/
def countBlocks (fatLen : Nat) (fat : Nat → Nat) : Nat → Nat → Nat → Int → Res (Nat × Int)
  | 0, currentIndex, lastIndex, blocksHave =>
    if currentIndex = 0xFFFF then .ok (lastIndex, blocksHave) else .hang
  | fuel + 1, currentIndex, lastIndex, blocksHave =>
    if currentIndex = 0xFFFF then .ok (lastIndex, blocksHave)
    else if currentIndex < fatLen then
      countBlocks fatLen fat fuel (fat currentIndex) currentIndex (blocksHave + 1)
    else .fault

/-- The loop of lines 558-572 of `fs_write`, `while (blocksNeeded > 0 && i <
sb->numDBlocks)`, run for the `k` remaining values of `i`.  A free entry is
linked behind `lastIndex`; it is marked `0xFFFF` only when it is the last one
needed.  Returns the array `fat`. -/
def assignBlocks (fatLen : Nat) : Nat → Nat → (Nat → Nat) → Nat → Int → Res (Nat → Nat)
  | 0, _, fat, _, _ => .ok fat
  | k + 1, i, fat, lastIndex, blocksNeeded =>
    if blocksNeeded > 0 then
      if fat i = 0 then
        let fat1 := if blocksNeeded - 1 = 0 then Function.update fat i 0xFFFF else fat
        if lastIndex < fatLen then
          assignBlocks fatLen k (i + 1) (Function.update fat1 lastIndex i) i (blocksNeeded - 1)
        else .fault
      else assignBlocks fatLen k (i + 1) fat lastIndex blocksNeeded
    else .ok fat

/-- The loop of lines 579-586 of `fs_write`: `while (blocksNeeded != 0)
{ blockCount++; currentIndex = fat[currentIndex]; }`.  The body never changes
`blocksNeeded`. -/
def deassignLoop (fatLen : Nat) (fat : Nat → Nat) (blocksNeeded : Int) : Nat → Nat → Res Unit
  | 0, _ => if blocksNeeded ≠ 0 then .hang else .ok ()
  | fuel + 1, currentIndex =>
    if blocksNeeded ≠ 0 then
      if currentIndex < fatLen then deassignLoop fatLen fat blocksNeeded fuel (fat currentIndex)
      else .fault
    else .ok ()

/-- The loop of lines 607-623 of `fs_write`, run for the `k` remaining values of
`i`.  `bounce` is the 4096-byte array on the stack, which nothing initialises;
a negative `copyCount` becomes a `size_t` beyond every object, and a copy that
ends past `bounce + 4096` overruns the array: both fault.  The result of
`block_write` is not looked at.  Returns the device. -/
def writeLoop (fatLen : Nat) (fat : Nat → Nat) (dataIndex : Nat) (buf : Block) :
    Nat → Nat → Disk → Block → Nat → Int → Int → Res Disk
  | 0, _, disk, _, _, _, _ => .ok disk
  | k + 1, i, disk, bounce, currentIndex, realCount, startOffset =>
    let startOffset : Int := if i > 0 then 0 else startOffset
    let copyCount : Int := if realCount > 4096 then 4096 else realCount
    if copyCount < 0 then .fault
    else if copyCount > 0 ∧ (startOffset < 0 ∨ startOffset + copyCount > 4096) then .fault
    else
      let bounce1 := strncpy bounce startOffset.toNat buf (i * BLOCK_BYTES) copyCount.toNat
      let disk1 := (block_write disk (currentIndex + dataIndex) bounce1).getD disk
      if currentIndex < fatLen then
        writeLoop fatLen fat dataIndex buf k (i + 1) disk1 bounce1 (fat currentIndex)
          (realCount - 4096) startOffset
      else .fault

/-- The function `fs_write`.  `bounce` is the content of the uninitialised
stack array of line 596; `buf` is the memory at the caller's pointer. -/
def fs_write (st : FS) (bounce : Block) (fd : Int) (buf : Block) (count : Nat) :
    Res (FS × Int) :=
  if badFd st fd then .ok (st, -1)
  else if count = 0 then .ok (st, 0)
  else
    let d := st.openedFiles fd.toNat
    (findFileFd st.root st.openedFiles fd.toNat).bind fun found =>
    match found with
    | none => .fault
    | some fileIndex =>
      let firstIndex := (st.root fileIndex).firstIndex
      let totalBytes : Int := toInt32 (d.offset + toInt32 count)
      let totalBlocks : Int :=
        if Int.tmod totalBytes 4096 > 0 then Int.tdiv totalBytes 4096 + 1
        else Int.tdiv totalBytes 4096
      (countBlocks st.fatLen st.fat WALK_FUEL firstIndex firstIndex 0).bind fun r =>
        let lastIndex := r.1
        let blocksNeeded : Int := totalBlocks - r.2
        (if blocksNeeded > 0 then
            assignBlocks st.fatLen st.sb.numDBlocks 0 st.fat lastIndex blocksNeeded
          else if blocksNeeded < 0 then
            (deassignLoop st.fatLen st.fat blocksNeeded WALK_FUEL firstIndex).bind fun _ =>
              .ok st.fat
          else .ok st.fat).bind fun fat1 =>
        let totalCount : Int := toInt32 (count - d.offset)
        (writeLoop st.fatLen fat1 st.sb.dataIndex buf totalBlocks.toNat 0 st.disk bounce
            firstIndex totalCount d.offset).bind fun disk1 =>
          let size := toUInt32 (count + d.offset)
          .ok ({ st with
                  fat := fat1
                  disk := disk1
                  root := Function.update st.root fileIndex { st.root fileIndex with size := size }
                  openedFiles := Function.update st.openedFiles fd.toNat
                    { d with offset := toInt32 size } },
               totalCount)

/-- The loop of lines 691-707 of `fs_read`, run for the `k` remaining values of
`i`.  A failed `block_read` leaves `bounce` as it was.  `strncpy` reads the
source up to its first zero byte: the read leaves the array when the copy may
pass `bounce + 4096` and no zero byte comes before.  Returns the caller's
buffer. -/
def readLoop (fatLen : Nat) (fat : Nat → Nat) (dataIndex : Nat) (disk : Disk) :
    Nat → Nat → Block → Block → Nat → Int → Int → Res Block
  | 0, _, buf, _, _, _, _ => .ok buf
  | k + 1, i, buf, bounce, currentIndex, realCount, startOffset =>
    let startOffset : Int := if i > 0 then 0 else startOffset
    let copyCount : Int := if realCount > 4096 then 4096 else realCount
    let bounce1 := (block_read disk (currentIndex + dataIndex) bounce).getD bounce
    if copyCount < 0 then .fault
    else if copyCount > 0 ∧ (startOffset < 0 ∨ (startOffset + copyCount > 4096 ∧
        ∀ p < BLOCK_BYTES, startOffset.toNat ≤ p → bounce1 p ≠ 0)) then .fault
    else
      let buf1 := strncpy buf (i * BLOCK_BYTES) bounce1 startOffset.toNat copyCount.toNat
      if currentIndex < fatLen then
        readLoop fatLen fat dataIndex disk k (i + 1) buf1 bounce1 (fat currentIndex)
          (realCount - 4096) startOffset
      else .fault

/-- The function `fs_read`.  `bounce` is the content of the uninitialised stack
array of line 681; `buf` is the memory at the caller's pointer.  Returns the
state, the caller's buffer and the `int` result. -/
def fs_read (st : FS) (bounce : Block) (fd : Int) (buf : Block) (count : Nat) :
    Res (FS × Block × Int) :=
  if badFd st fd then .ok (st, buf, -1)
  else if count = 0 then .ok (st, buf, 0)
  else
    let d := st.openedFiles fd.toNat
    (findFileFd st.root st.openedFiles fd.toNat).bind fun found =>
    match found with
    | none => .fault
    | some fileIndex =>
      let size := (st.root fileIndex).size
      let totalBlocks : Nat := if size % BLOCK_BYTES ≠ 0 then size / BLOCK_BYTES + 1
        else size / BLOCK_BYTES
      let totalCount : Int := toInt32 (count - d.offset)
      (readLoop st.fatLen st.fat st.sb.dataIndex st.disk totalBlocks 0 buf bounce
          (st.root fileIndex).firstIndex totalCount d.offset).bind fun buf1 =>
        .ok ({ st with
                openedFiles := Function.update st.openedFiles fd.toNat
                  { d with offset := toInt32 size } },
             buf1, totalCount)

/-! ## fs_info (fs.c lines 162-198) -/

/-- The count `freeFat` that `fs_info` prints (lines 178-183): the entries of
the FAT below `numDBlocks` that are 0. -/
def freeFat (st : FS) : Nat :=
  (List.range st.sb.numDBlocks).countP (fun i => st.fat i == 0)

/-! ## Notions of the specification -/

/-- The superblock invariants of the spec (section 3), for a device of
`deviceBlocks` blocks; `ceil(numDBlocks * 2 / 4096)` is written with the usual
rounding-up division. -/
def GeometryOK (sb : superBlock) (deviceBlocks : Nat) : Prop :=
  sb.signature = SIGNATURE_CHECK ∧
  sb.numBlocks = deviceBlocks ∧
  sb.numFBlocks = (sb.numDBlocks * 2 + 4095) / 4096 ∧
  sb.rootIndex = 1 + sb.numFBlocks ∧
  sb.dataIndex = 1 + sb.rootIndex ∧
  (sb.numDBlocks : Int) = (sb.numBlocks : Int) - (sb.dataIndex : Int)

/-- The list `c` is the chain that starts at block `cur`: each block is
followed by the block its FAT entry names, and the entry of the last one is
`0xFFFF` (spec, section 3). -/
def IsChain (fat : Nat → Nat) : Nat → List Nat → Prop
  | cur, [] => cur = 0xFFFF
  | cur, b :: bs => cur ≠ 0xFFFF ∧ b = cur ∧ IsChain fat (fat cur) bs

/-- Root directory entry `i` holds a file: its name is not empty. -/
def InUse (st : FS) (i : Nat) : Prop :=
  i < NUM_ROOTDIR_ENTRIES ∧ isEmptyName (st.root i).filename = false

/-- The chain partition invariant of the spec (section 8): every data block is
either free, and on no file's chain, or not free and on the chain of exactly
one file. -/
def ChainPartition (st : FS) : Prop :=
  ∀ j, j < st.sb.numDBlocks →
    (st.fat j = 0 ∧
      ∀ i c, InUse st i → IsChain st.fat (st.root i).firstIndex c → j ∉ c) ∨
    (st.fat j ≠ 0 ∧
      ∃! i, InUse st i ∧ ∃ c, IsChain st.fat (st.root i).firstIndex c ∧ j ∈ c)

/-- A well-formed volume (spec, section 3): the FAT array covers the data
blocks, every file has a non-empty chain of data blocks whose entries are not
0, chains of different files share no block, every entry that is not 0 lies on
a chain, every name field holds a terminator, and names are unique. -/
structure WellFormed (st : FS) : Prop where
  fat_fits : st.sb.numDBlocks ≤ st.fatLen
  blocks_u16 : st.sb.numDBlocks ≤ 0xFFFF
  chains : ∀ i, InUse st i → ∃ c, IsChain st.fat (st.root i).firstIndex c ∧ c ≠ [] ∧
    ∀ b ∈ c, b < st.sb.numDBlocks ∧ st.fat b ≠ 0
  disjoint : ∀ i i' c c', InUse st i → InUse st i' → i ≠ i' →
    IsChain st.fat (st.root i).firstIndex c → IsChain st.fat (st.root i').firstIndex c' →
    ∀ b ∈ c, b ∉ c'
  no_leak : ∀ j, j < st.sb.numDBlocks → st.fat j ≠ 0 →
    ∃ i c, InUse st i ∧ IsChain st.fat (st.root i).firstIndex c ∧ j ∈ c
  names_terminated : ∀ i, i < NUM_ROOTDIR_ENTRIES →
    (st.root i).filename.length = FILENAME_MAX_SIZE ∧ 0 ∈ (st.root i).filename
  names_unique : ∀ i i', InUse st i → InUse st i' →
    cstr (st.root i).filename = cstr (st.root i').filename → i = i'

/-- The call sequence of the round-trip property (spec, section 8):
`fs_create(name); fd = fs_open(name); fs_write(fd, data, n); fs_close(fd);
fd2 = fs_open(name); fs_read(fd2, buf, n); fs_stat(fd2)`.  Returns the buffer
after the read, the result of `fs_read` and the result of `fs_stat`. -/
def roundTrip (st : FS) (bounceW bounceR : Block) (name : List Nat) (data : Block) (n : Nat)
    (buf : Block) : Res (Block × Int × Int) :=
  (fs_open (fs_create st name).1 name).bind fun r2 =>
    (fs_write r2.1 bounceW r2.2 data n).bind fun r3 =>
      (fs_open (fs_close r3.1 r2.2).1 name).bind fun r5 =>
        (fs_read r5.1 bounceR r5.2 buf n).bind fun r6 =>
          (fs_stat r6.1 r5.2).bind fun size => .ok (r6.2.1, r6.2.2, size)

/-! ## Example volumes -/

/-- A root directory entry that holds no file. -/
def freeEntry : fileInfo := ⟨List.replicate 16 0, 0, 0, List.replicate 10 0⟩

/-- A closed descriptor slot. -/
def closedFd : fileDescriptor := ⟨List.replicate 16 0, 0⟩

/-- The 16-byte name field that holds "a". -/
def nameA : List Nat := 97 :: List.replicate 15 0

/-- The 16-byte name field that holds "b". -/
def nameB : List Nat := 98 :: List.replicate 15 0

/-- A buffer of zero bytes. -/
def zeros : Block := fun _ => 0

/-- A buffer in which every byte is 7. -/
def sevens : Block := fun _ => 7

/-- The two bytes 0, 1 (followed by zeros). -/
def zeroOne : Block := fun p => if p = 1 then 1 else 0

/-- The superblock of a device of 6 blocks: one FAT block, the root directory
in block 2, three data blocks from block 3 on. -/
def smallSuperBlock : superBlock := ⟨SIGNATURE_CHECK, 6, 2, 3, 3, 1, []⟩

/-- A device of 6 blocks whose block 0 holds `smallSuperBlock` and whose other
blocks are zero. -/
def formattedDisk : Disk :=
  ⟨6, fun b => if b = 0 then encodeSuperBlock smallSuperBlock else zeros⟩

/-- A mounted volume of three free data blocks, with an empty root directory
and no open descriptor. -/
def emptyVolume : FS :=
  { sb := smallSuperBlock
    fat := fun _ => 0
    root := fun _ => freeEntry
    openedFiles := fun _ => closedFd
    disk := ⟨6, fun _ => zeros⟩ }

/-- A mounted volume of three data blocks, every disk byte 5, with one file "a"
of `size` bytes in data block 0, open on descriptor 0 with cursor `offset`. -/
def oneFileVolume (size : Nat) (offset : Int) : FS :=
  { sb := smallSuperBlock
    fat := fun j => if j = 0 then 0xFFFF else 0
    root := fun i => if i = 0 then ⟨nameA, size, 0, List.replicate 10 0⟩ else freeEntry
    openedFiles := fun i => if i = 0 then ⟨nameA, offset⟩ else closedFd
    disk := ⟨6, fun _ _ => 5⟩ }

/-- A mounted volume of three data blocks with two empty files: "a" in data
block 0, open on descriptor 0, and "b" in data block 2, not open; data block 1
is free. -/
def twoFileVolume : FS :=
  { sb := smallSuperBlock
    fat := fun j => if j = 0 then 0xFFFF else if j = 2 then 0xFFFF else 0
    root := fun i => if i = 0 then ⟨nameA, 0, 0, List.replicate 10 0⟩
      else if i = 1 then ⟨nameB, 0, 2, List.replicate 10 0⟩ else freeEntry
    openedFiles := fun i => if i = 0 then ⟨nameA, 0⟩ else closedFd
    disk := ⟨6, fun _ _ => 5⟩ }

/-- A name of sixteen characters "a": it fills the 16-byte field and leaves no
room for the terminator. -/
def name16 : List Nat := List.replicate 16 97

/-- The volume `oneFileVolume 0 0` with every descriptor slot (all 32) open on
file "a".  Root entry 1 is free; its `firstIndex` field holds 0. -/
def allOpenVolume : FS :=
  { oneFileVolume 0 0 with openedFiles := fun _ => ⟨nameA, 0⟩ }

/-- A mounted volume of three data blocks, all of them in the chain 0, 1, 2 of
the one file "a": no FAT entry is 0, and root entry 1 is free. -/
def fullVolume : FS :=
  { sb := smallSuperBlock
    fat := fun j => if j = 0 then 1 else if j = 1 then 2 else 0xFFFF
    root := fun i => if i = 0 then ⟨nameA, 0, 0, List.replicate 10 0⟩ else freeEntry
    openedFiles := fun _ => closedFd
    disk := ⟨6, fun _ _ => 5⟩ }

/-- A mounted volume of three data blocks whose one file "a" (8192 bytes) has
the two-block chain 0, 1; block 2 is free; descriptor 0 is open on "a" with
cursor 0. -/
def twoBlockVolume : FS :=
  { sb := smallSuperBlock
    fat := fun j => if j = 0 then 1 else if j = 1 then 0xFFFF else 0
    root := fun i => if i = 0 then ⟨nameA, 8192, 0, List.replicate 10 0⟩ else freeEntry
    openedFiles := fun i => if i = 0 then ⟨nameA, 0⟩ else closedFd
    disk := ⟨6, fun _ _ => 5⟩ }

/-- A mounted volume whose root directory is full: entry `i` holds the file
whose name is the single character `i + 1`. -/
def fullDirectory : FS :=
  { emptyVolume with
    root := fun i => ⟨(i + 1) :: List.replicate 15 0, 0, 0, List.replicate 10 0⟩ }

/-- A mounted volume of three data blocks whose one file has the name of 16
characters "a" (no terminator in the field), size 5 and the chain 0; no
descriptor is open. -/
def longNameVolume : FS :=
  { sb := smallSuperBlock
    fat := fun j => if j = 0 then 0xFFFF else 0
    root := fun i => if i = 0 then ⟨name16, 5, 0, List.replicate 10 0⟩ else freeEntry
    openedFiles := fun _ => closedFd
    disk := ⟨6, fun _ _ => 5⟩ }

/-- The state after `fs_create`, `fs_open`, `fs_write` of 5 bytes, `fs_close`,
`fs_create` and `fs_open` on the empty volume, each with the name of 16
characters "a". -/
def twoLongNames : Res FS :=
  (fs_open (fs_create emptyVolume name16).1 name16).bind fun r =>
    (fs_write r.1 zeros r.2 sevens 5).bind fun w =>
      (fs_open (fs_create (fs_close w.1 r.2).1 name16).1 name16).bind fun r2 => .ok r2.1

/-! ## Sequences of directory operations -/

/-- No two root directory entries in use hold the same name (spec, section 3). -/
def UniqueNames (st : FS) : Prop :=
  ∀ i i', InUse st i → InUse st i' →
    cstr (st.root i).filename = cstr (st.root i').filename → i = i'

/-- A call of `fs_create` or of `fs_delete`, with its argument. -/
inductive DirOp where
  | create (filename : List Nat)
  | delete (filename : List Nat)

/-- The state after one directory call, whatever value the call returns. -/
def dirStep (st : FS) : DirOp → Res FS
  | .create filename => .ok (fs_create st filename).1
  | .delete filename => (fs_delete st filename).bind fun r => .ok r.1

/-- The state after a sequence of directory calls made one after the other. -/
def runDirOps (st : FS) : List DirOp → Res FS
  | [] => .ok st
  | op :: ops => (dirStep st op).bind fun st1 => runDirOps st1 ops

/-! ## Sequences of directory and descriptor operations -/

/-- A call of `fs_create`, `fs_delete`, `fs_open`, `fs_close` or `fs_lseek`,
with its arguments. -/
inductive Call where
  | create (filename : List Nat)
  | delete (filename : List Nat)
  | openFile (filename : List Nat)
  | close (fd : Int)
  | lseek (fd : Int) (offset : Nat)

/-- The state after one call, whatever value the call returns. -/
def callStep (st : FS) : Call → Res FS
  | .create filename => .ok (fs_create st filename).1
  | .delete filename => (fs_delete st filename).bind fun r => .ok r.1
  | .openFile filename => (fs_open st filename).bind fun r => .ok r.1
  | .close fd => .ok (fs_close st fd).1
  | .lseek fd offset => (fs_lseek st fd offset).bind fun r => .ok r.1

/-- The state after a sequence of calls made one after the other. -/
def runCalls (st : FS) : List Call → Res FS
  | [] => .ok st
  | op :: ops => (callStep st op).bind fun st1 => runCalls st1 ops

/-- The name passed to a call has at most 15 characters (calls without a name
qualify). -/
def Call.shortName : Call → Prop
  | .create filename => strlen filename ≤ 15
  | .delete filename => strlen filename ≤ 15
  | .openFile filename => strlen filename ≤ 15
  | .close _ => True
  | .lseek _ _ => True

/-- Every descriptor slot that is open holds a name of at most 15 characters,
which is the name of a root directory entry in use. -/
def HandlesResolve (st : FS) : Prop :=
  ∀ fd, fd < MAX_OPEN_FILE_DESCRIPTORS → isEmptyName (st.openedFiles fd).filename = false →
    strlen (st.openedFiles fd).filename ≤ 15 ∧
    ∃ fileIndex, InUse st fileIndex ∧
      cstr (st.root fileIndex).filename = cstr (st.openedFiles fd).filename

/-! ## Chain growth -/

/-- The indices below `numDBlocks` whose FAT entry is 0, in ascending order. -/
def freeBlocks (st : FS) : List Nat :=
  (List.range st.sb.numDBlocks).filter (fun i => st.fat i == 0)

/-- A well-formed mounted volume of three data blocks in which data block 0 is
free: the one file "a" (size 0) has the chain 1, blocks 0 and 2 are free, and
descriptor 0 is open on "a" with cursor 0. -/
def blockZeroFreeVolume : FS :=
  { sb := smallSuperBlock
    fat := fun j => if j = 1 then 0xFFFF else 0
    root := fun i => if i = 0 then ⟨nameA, 0, 1, List.replicate 10 0⟩ else freeEntry
    openedFiles := fun i => if i = 0 then ⟨nameA, 0⟩ else closedFd
    disk := ⟨6, fun _ _ => 5⟩ }

/-! ## Auxiliary lemmas -/

theorem exists_least_index (n : Nat) (p : Nat → Bool) (h : ∃ i, i < n ∧ p i = true) :
    ∃ m, m < n ∧ p m = true ∧ ∀ j, j < m → p j = false := by
  classical
  refine ⟨Nat.find h, (Nat.find_spec h).1, (Nat.find_spec h).2, ?_⟩
  intro j hj
  have hmin := Nat.find_min h hj
  have hlt : j < n := Nat.lt_trans hj (Nat.find_spec h).1
  cases hp : p j
  · rfl
  · exact absurd ⟨hlt, hp⟩ hmin

/-! ### String comparison -/

theorem cstr_nil : cstr [] = [] := rfl

theorem cstr_cons_zero (xs : List Nat) : cstr (0 :: xs) = [] := by
  simp [cstr, List.takeWhile_cons]

theorem cstr_cons_ne (x : Nat) (xs : List Nat) (hx : x ≠ 0) : cstr (x :: xs) = x :: cstr xs := by
  simp [cstr, List.takeWhile_cons, hx]

theorem cstr_getD_lt (u : List Nat) :
    ∀ j, j < (cstr u).length → u.getD j 0 = (cstr u).getD j 0 ∧ u.getD j 0 ≠ 0 := by
  induction u with
  | nil => intro j hj; simp [cstr_nil] at hj
  | cons x xs ih =>
    intro j hj
    by_cases hx : x = 0
    · subst hx
      rw [cstr_cons_zero] at hj
      simp at hj
    · rw [cstr_cons_ne x xs hx] at hj ⊢
      cases j with
      | zero => exact ⟨rfl, hx⟩
      | succ j =>
        have := ih j (by simpa using hj)
        simpa using this

theorem cstr_getD_length (u : List Nat) : u.getD (cstr u).length 0 = 0 := by
  induction u with
  | nil => rfl
  | cons x xs ih =>
    by_cases hx : x = 0
    · subst hx
      rw [cstr_cons_zero]
      rfl
    · rw [cstr_cons_ne x xs hx]
      simpa using ih

theorem cstr_getD_le (u : List Nat) (j : Nat) (hj : j ≤ (cstr u).length) :
    u.getD j 0 = (cstr u).getD j 0 := by
  rcases Nat.lt_or_eq_of_le hj with h | h
  · exact (cstr_getD_lt u j h).1
  · rw [h, cstr_getD_length]
    simp

theorem cstr_eq_of_getD (u : List Nat) :
    ∀ v : List Nat, (∀ j, j ≤ (cstr u).length → v.getD j 0 = u.getD j 0) → cstr v = cstr u := by
  induction u with
  | nil =>
    intro v h
    have h0 := h 0 (Nat.zero_le _)
    cases v with
    | nil => rfl
    | cons y ys =>
      have hy : y = 0 := by simpa using h0
      subst hy
      rw [cstr_cons_zero, cstr_nil]
  | cons x xs ih =>
    intro v h
    by_cases hx : x = 0
    · subst hx
      rw [cstr_cons_zero] at h ⊢
      have h0 := h 0 (Nat.le_refl _)
      cases v with
      | nil => rfl
      | cons y ys =>
        have hy : y = 0 := by simpa using h0
        subst hy
        exact cstr_cons_zero ys
    · rw [cstr_cons_ne x xs hx] at h ⊢
      have h0 := h 0 (Nat.zero_le _)
      cases v with
      | nil =>
        exfalso
        apply hx
        simpa using h0.symm
      | cons y ys =>
        have hy : y = x := by simpa using h0
        subst hy
        rw [cstr_cons_ne y ys hx]
        congr 1
        apply ih ys
        intro j hj
        have := h (j + 1) (by simpa using hj)
        simpa using this

theorem sameName_eq_true_iff (a b : List Nat) : sameName a b = true ↔ cstr a = cstr b := by
  simp [sameName]

theorem sameName_eq_false_iff (a b : List Nat) : sameName a b = false ↔ cstr a ≠ cstr b := by
  simp [sameName]

theorem strcmp_true_of (a b : Block) :
    ∀ (k n p : Nat), k < n → (∀ j, j < k → a (p + j) = b (p + j) ∧ a (p + j) ≠ 0) →
      a (p + k) = 0 → b (p + k) = 0 → strcmp a b n p = some true := by
  intro k
  induction k with
  | zero =>
    intro n p hn _ ha hb
    obtain ⟨m, rfl⟩ : ∃ m, n = m + 1 := ⟨n - 1, by omega⟩
    rw [Nat.add_zero] at ha hb
    simp [strcmp, ha, hb]
  | succ k ih =>
    intro n p hn hagree ha hb
    obtain ⟨m, rfl⟩ : ∃ m, n = m + 1 := ⟨n - 1, by omega⟩
    have h0 := hagree 0 (Nat.succ_pos k)
    rw [Nat.add_zero] at h0
    unfold strcmp
    rw [if_neg (not_not.2 h0.1), if_neg h0.2]
    apply ih m (p + 1) (by omega)
    · intro j hj
      have := hagree (j + 1) (by omega)
      rwa [show p + (j + 1) = p + 1 + j by omega] at this
    · rwa [show p + (k + 1) = p + 1 + k by omega] at ha
    · rwa [show p + (k + 1) = p + 1 + k by omega] at hb

theorem strcmp_false_of (a b : Block) :
    ∀ (k n p : Nat), k < n → (∀ j, j < k → a (p + j) = b (p + j) ∧ a (p + j) ≠ 0) →
      a (p + k) ≠ b (p + k) → strcmp a b n p = some false := by
  intro k
  induction k with
  | zero =>
    intro n p hn _ hne
    obtain ⟨m, rfl⟩ : ∃ m, n = m + 1 := ⟨n - 1, by omega⟩
    rw [Nat.add_zero] at hne
    simp [strcmp, hne]
  | succ k ih =>
    intro n p hn hagree hne
    obtain ⟨m, rfl⟩ : ∃ m, n = m + 1 := ⟨n - 1, by omega⟩
    have h0 := hagree 0 (Nat.succ_pos k)
    rw [Nat.add_zero] at h0
    unfold strcmp
    rw [if_neg (not_not.2 h0.1), if_neg h0.2]
    apply ih m (p + 1) (by omega)
    · intro j hj
      have := hagree (j + 1) (by omega)
      rwa [show p + (j + 1) = p + 1 + j by omega] at this
    · rwa [show p + (k + 1) = p + 1 + k by omega] at hne

theorem strcmp_eq_some_true (a b : Block) :
    ∀ (n p : Nat), strcmp a b n p = some true →
      ∃ k, k < n ∧ (∀ j, j < k → a (p + j) = b (p + j) ∧ a (p + j) ≠ 0) ∧
        a (p + k) = 0 ∧ b (p + k) = 0 := by
  intro n
  induction n with
  | zero => intro p h; simp [strcmp] at h
  | succ n ih =>
    intro p h
    unfold strcmp at h
    by_cases h1 : a p ≠ b p
    · rw [if_pos h1] at h
      exact absurd h (by simp)
    · rw [if_neg h1] at h
      have h1' : a p = b p := not_not.1 h1
      by_cases h2 : a p = 0
      · refine ⟨0, Nat.succ_pos n, fun j hj => absurd hj (Nat.not_lt_zero j), ?_, ?_⟩
        · simpa using h2
        · rw [Nat.add_zero, ← h1']; exact h2
      · rw [if_neg h2] at h
        obtain ⟨k, hk, hagree, ha, hb⟩ := ih (p + 1) h
        refine ⟨k + 1, by omega, ?_, ?_, ?_⟩
        · intro j hj
          cases j with
          | zero => exact ⟨by simpa using h1', by simpa using h2⟩
          | succ j =>
            have := hagree j (by omega)
            rwa [show p + 1 + j = p + (j + 1) by omega] at this
        · rwa [show p + 1 + k = p + (k + 1) by omega] at ha
        · rwa [show p + 1 + k = p + (k + 1) by omega] at hb

theorem strcmp_comm (a b : Block) : ∀ (n p : Nat), strcmp a b n p = strcmp b a n p := by
  intro n
  induction n with
  | zero => intro p; rfl
  | succ n ih =>
    intro p
    unfold strcmp
    by_cases h1 : a p = b p
    · rw [if_neg (not_not.2 h1), if_neg (not_not.2 h1.symm), ih (p + 1)]
      by_cases h2 : a p = 0
      · rw [if_pos h2, if_pos (h1 ▸ h2)]
      · rw [if_neg h2, if_neg (h1 ▸ h2)]
    · rw [if_pos h1, if_pos (Ne.symm h1)]

theorem strcmp_of_left (u v : List Nat) (a b : Block) (n : Nat)
    (ha : ∀ j, j ≤ (cstr u).length → a j = u.getD j 0)
    (hb : ∀ j, j ≤ (cstr u).length → b j = v.getD j 0)
    (hn : (cstr u).length < n) :
    strcmp a b n 0 = some (sameName u v) := by
  cases hs : sameName u v
  · have hne : cstr v ≠ cstr u := fun e => (sameName_eq_false_iff u v).1 hs e.symm
    have hex : ∃ d, d < (cstr u).length + 1 ∧ (decide (a d ≠ b d)) = true := by
      by_contra hno
      apply hne
      apply cstr_eq_of_getD u v
      intro j hj
      rw [← ha j hj, ← hb j hj]
      by_contra hjne
      exact hno ⟨j, by omega, by simpa using fun e => hjne e.symm⟩
    obtain ⟨d, hd, hdne, hleast⟩ := exists_least_index _ _ hex
    apply strcmp_false_of a b d n 0 (by omega)
    · intro j hj
      rw [Nat.zero_add]
      have heq : a j = b j := by simpa using hleast j hj
      refine ⟨heq, ?_⟩
      rw [ha j (by omega)]
      exact (cstr_getD_lt u j (by omega)).2
    · rw [Nat.zero_add]
      simpa using hdne
  · have heq : cstr u = cstr v := (sameName_eq_true_iff u v).1 hs
    apply strcmp_true_of a b (cstr u).length n 0 hn
    · intro j hj
      rw [Nat.zero_add, ha j (by omega), hb j (by omega)]
      have h1 := cstr_getD_lt u j hj
      have h2 := cstr_getD_lt v j (by rw [← heq]; exact hj)
      rw [h1.1, h2.1, heq]
      refine ⟨rfl, ?_⟩
      rw [← heq, ← h1.1]
      exact h1.2
    · rw [Nat.zero_add, ha _ (Nat.le_refl _)]
      exact cstr_getD_length u
    · rw [Nat.zero_add, hb _ (Nat.le_refl _), heq]
      exact cstr_getD_length v

theorem argBytes_getD (filename : List Nat) (j : Nat) (hj : j ≤ (cstr filename).length) :
    argBytes filename j = filename.getD j 0 :=
  (cstr_getD_le filename j hj).symm

theorem rootNameBytes_name (root : Nat → fileInfo) (i j : Nat) (hj : j < 16) :
    rootNameBytes root i j = (root i).filename.getD j 0 := by
  have h1 : (32 * i + j) / 32 = i := by omega
  have h2 : (32 * i + j) % 32 = j := by omega
  simp only [rootNameBytes, encodeRoot, h1, h2, hj, if_true]

theorem fdNameBytes_name (openedFiles : Nat → fileDescriptor) (i j : Nat) (hj : j < 16) :
    fdNameBytes openedFiles i j = (openedFiles i).filename.getD j 0 := by
  have h1 : (20 * i + j) / 20 = i := by omega
  have h2 : (20 * i + j) % 20 = j := by omega
  simp only [fdNameBytes, encodeDescriptors, h1, h2, hj, if_true]

theorem isEmptyName_iff_getD (f : List Nat) : isEmptyName f = true ↔ f.getD 0 0 = 0 := by
  cases f <;> simp [isEmptyName]

theorem find?_ext (p q : Nat → Bool) :
    ∀ l : List Nat, (∀ x ∈ l, p x = q x) → l.find? p = l.find? q := by
  intro l
  induction l with
  | nil => intro _; rfl
  | cons x xs ih =>
    intro h
    rw [List.find?_cons, List.find?_cons, h x (List.mem_cons_self _ _),
      ih (fun y hy => h y (List.mem_cons_of_mem _ hy))]

theorem firstMatch_of_defined (n : Nat) (cmp : Nat → Option Bool) (f : Nat → Bool)
    (h : ∀ i, i < n → cmp i = some (f i)) :
    firstMatch n cmp = .ok ((List.range n).find? f) := by
  have hcongr : (List.range n).find? (fun i => cmp i != some false)
      = (List.range n).find? f := by
    apply find?_ext
    intro i hi
    rw [h i (List.mem_range.1 hi)]
    cases f i <;> rfl
  unfold firstMatch
  rw [hcongr]
  cases hf : (List.range n).find? f with
  | none => rfl
  | some i =>
    have h1 := List.find?_range_eq_some.1 hf
    have h2 : cmp i = some true := by
      rw [h i (List.mem_range.1 h1.2.1), h1.1]
    simp only [h2, if_true]

theorem firstMatch_eq_some (n : Nat) (cmp : Nat → Option Bool) (i : Nat)
    (h : firstMatch n cmp = .ok (some i)) :
    i < n ∧ cmp i = some true ∧ ∀ j, j < i → cmp j = some false := by
  unfold firstMatch at h
  cases hf : (List.range n).find? (fun i => cmp i != some false) with
  | none => rw [hf] at h; cases h
  | some m =>
    rw [hf] at h
    simp only at h
    have h1 := List.find?_range_eq_some.1 hf
    by_cases hm : cmp m = some true
    · rw [if_pos hm] at h
      have e : m = i := by simpa using Res.ok.inj h
      subst e
      refine ⟨List.mem_range.1 h1.2.1, hm, ?_⟩
      intro j hj
      have := h1.2.2 j hj
      simpa using this
    · rw [if_neg hm] at h
      cases h

theorem firstMatch_eq_none (n : Nat) (cmp : Nat → Option Bool)
    (h : firstMatch n cmp = .ok none) : ∀ i, i < n → cmp i = some false := by
  unfold firstMatch at h
  cases hf : (List.range n).find? (fun i => cmp i != some false) with
  | none =>
    intro i hi
    have := List.find?_eq_none.1 hf i (List.mem_range.2 hi)
    simpa using this
  | some m =>
    rw [hf] at h
    simp only at h
    by_cases hm : cmp m = some true
    · rw [if_pos hm] at h; cases h
    · rw [if_neg hm] at h; cases h

theorem strcmp_defined (a b : Block) :
    ∀ (n p k : Nat), k < n → a (p + k) = 0 → ∃ r, strcmp a b n p = some r := by
  intro n
  induction n with
  | zero => intro p k hk; exact absurd hk (Nat.not_lt_zero k)
  | succ n ih =>
    intro p k hk ha
    unfold strcmp
    by_cases h1 : a p ≠ b p
    · exact ⟨false, by rw [if_pos h1]⟩
    · rw [if_neg h1]
      by_cases h2 : a p = 0
      · exact ⟨true, by rw [if_pos h2]⟩
      · rw [if_neg h2]
        cases k with
        | zero => exact absurd (by simpa using ha) h2
        | succ k =>
          exact ih (p + 1) k (by omega) (by rwa [show p + (k + 1) = p + 1 + k by omega] at ha)

theorem strcmp_true_head (a b : Block) (n : Nat) (h : strcmp a b n 0 = some true) :
    a 0 = b 0 := by
  obtain ⟨k, _, hagree, ha, hb⟩ := strcmp_eq_some_true a b n 0 h
  cases k with
  | zero =>
    rw [Nat.zero_add] at ha hb
    rw [ha, hb]
  | succ k => simpa using (hagree 0 (Nat.succ_pos k)).1

theorem firstMatch_defined (n : Nat) (cmp : Nat → Option Bool)
    (h : ∀ i, i < n → ∃ r, cmp i = some r) : ∃ r, firstMatch n cmp = .ok r := by
  refine ⟨_, firstMatch_of_defined n cmp (fun i => (cmp i).getD false) ?_⟩
  intro i hi
  obtain ⟨r, hr⟩ := h i hi
  show cmp i = some ((cmp i).getD false)
  rw [hr]
  rfl

theorem argBytes_length (filename : List Nat) : argBytes filename (cstr filename).length = 0 := by
  unfold argBytes
  simp

theorem findFileArg_defined (root : Nat → fileInfo) (filename : List Nat)
    (h : strlen filename ≤ FILENAME_MAX_SIZE) : ∃ r, findFileArg root filename = .ok r := by
  unfold findFileArg findFile
  apply firstMatch_defined
  intro i hi
  unfold NUM_ROOTDIR_ENTRIES at hi
  unfold strlen FILENAME_MAX_SIZE at h
  apply strcmp_defined _ _ _ 0 (cstr filename).length
  · unfold strlen BLOCK_BYTES
    omega
  · rw [Nat.zero_add]
    exact argBytes_length filename

theorem strcmp_arg_root (root : Nat → fileInfo) (filename : List Nat) (i : Nat)
    (hi : i < NUM_ROOTDIR_ENTRIES) (hlen : strlen filename ≤ 15) :
    strcmp (argBytes filename) (rootNameBytes root i)
      (min (strlen filename + 1) (BLOCK_BYTES - 32 * i)) 0
      = some (sameName filename (root i).filename) := by
  unfold strlen at hlen
  unfold NUM_ROOTDIR_ENTRIES at hi
  apply strcmp_of_left filename (root i).filename
  · exact argBytes_getD filename
  · intro j hj
    exact rootNameBytes_name root i j (by omega)
  · unfold strlen BLOCK_BYTES
    omega

theorem strcmp_arg_fd (openedFiles : Nat → fileDescriptor) (filename : List Nat) (i : Nat)
    (hi : i < MAX_OPEN_FILE_DESCRIPTORS) (hlen : strlen filename ≤ 15) :
    strcmp (argBytes filename) (fdNameBytes openedFiles i)
      (min (strlen filename + 1) (20 * MAX_OPEN_FILE_DESCRIPTORS - 20 * i)) 0
      = some (sameName filename (openedFiles i).filename) := by
  unfold strlen at hlen
  unfold MAX_OPEN_FILE_DESCRIPTORS at hi
  apply strcmp_of_left filename (openedFiles i).filename
  · exact argBytes_getD filename
  · intro j hj
    exact fdNameBytes_name openedFiles i j (by omega)
  · unfold strlen MAX_OPEN_FILE_DESCRIPTORS
    omega

theorem strcmp_fd_root (root : Nat → fileInfo) (openedFiles : Nat → fileDescriptor)
    (fd i : Nat) (hfd : fd < MAX_OPEN_FILE_DESCRIPTORS) (hi : i < NUM_ROOTDIR_ENTRIES)
    (hlen : strlen (openedFiles fd).filename ≤ 15) :
    strcmp (fdNameBytes openedFiles fd) (rootNameBytes root i)
      (min (20 * MAX_OPEN_FILE_DESCRIPTORS - 20 * fd) (BLOCK_BYTES - 32 * i)) 0
      = some (sameName (openedFiles fd).filename (root i).filename) := by
  unfold strlen at hlen
  unfold MAX_OPEN_FILE_DESCRIPTORS at hfd
  unfold NUM_ROOTDIR_ENTRIES at hi
  apply strcmp_of_left (openedFiles fd).filename (root i).filename
  · intro j hj
    exact fdNameBytes_name openedFiles fd j (by omega)
  · intro j hj
    exact rootNameBytes_name root i j (by omega)
  · unfold MAX_OPEN_FILE_DESCRIPTORS BLOCK_BYTES
    omega

/-- A name field without a terminator is read on into the bytes behind it.
In `twoLongNames` root entry 0 (size 5) and root entry 1 (size 0) hold the same
16 characters, and so does descriptor 0, with cursor 0: the string at entry 0
has the size byte 5 as 17th character, so the lookup of descriptor 0 ends on
entry 1.  `fs_lseek(0, 3)` returns -1 (entry 1 has size 0) and `fs_write` of 7
bytes sets the size of entry 1. -/
theorem lookup_reads_past_name :
    twoLongNames.val?.map (fun st =>
      ((st.root 0).filename, (st.root 0).size, (st.root 1).filename, (st.root 1).size))
      = some (name16, 5, name16, 0) ∧
    twoLongNames.val?.map (fun st =>
      ((st.openedFiles 0).filename, (st.openedFiles 0).offset,
        findFileFd st.root st.openedFiles 0)) = some (name16, 0, .ok (some 1)) ∧
    twoLongNames.val?.map (fun st => (fs_lseek st 0 3).val?.map (fun r => r.2))
      = some (some (-1)) ∧
    twoLongNames.val?.map (fun st => (fs_write st zeros 0 sevens 7).val?.map
      (fun r => ((r.1.root 0).size, (r.1.root 1).size))) = some (some (5, 7)) := by
  decide

theorem findFileArg_eq (root : Nat → fileInfo) (filename : List Nat)
    (hlen : strlen filename ≤ 15) :
    findFileArg root filename = .ok (findName root filename) :=
  firstMatch_of_defined _ _ _ (fun i hi => strcmp_arg_root root filename i hi hlen)

theorem findOpen_eq (openedFiles : Nat → fileDescriptor) (filename : List Nat)
    (hlen : strlen filename ≤ 15) :
    findOpen openedFiles (argBytes filename) (strlen filename + 1)
      = .ok ((List.range MAX_OPEN_FILE_DESCRIPTORS).find?
          (fun i => sameName filename (openedFiles i).filename)) :=
  firstMatch_of_defined _ _ _ (fun i hi => strcmp_arg_fd openedFiles filename i hi hlen)

theorem findFileFd_eq (root : Nat → fileInfo) (openedFiles : Nat → fileDescriptor) (fd : Nat)
    (hfd : fd < MAX_OPEN_FILE_DESCRIPTORS) (hlen : strlen (openedFiles fd).filename ≤ 15) :
    findFileFd root openedFiles fd = .ok (findName root (openedFiles fd).filename) :=
  firstMatch_of_defined _ _ _ (fun i hi => strcmp_fd_root root openedFiles fd i hfd hi hlen)

theorem findFile_eq_some (root : Nat → fileInfo) (name : Block) (len i : Nat)
    (h : findFile root name len = .ok (some i)) :
    i < NUM_ROOTDIR_ENTRIES ∧
      strcmp name (rootNameBytes root i) (min len (BLOCK_BYTES - 32 * i)) 0 = some true :=
  ⟨(firstMatch_eq_some _ _ i h).1, (firstMatch_eq_some _ _ i h).2.1⟩

theorem inUse_of_findFile (st : FS) (name : Block) (len i : Nat) (hname : name 0 ≠ 0)
    (h : findFile st.root name len = .ok (some i)) : InUse st i := by
  obtain ⟨hi, hcmp⟩ := findFile_eq_some st.root name len i h
  refine ⟨hi, ?_⟩
  have h0 := strcmp_true_head _ _ _ hcmp
  rw [rootNameBytes_name st.root i 0 (by decide)] at h0
  cases he : isEmptyName (st.root i).filename
  · rfl
  · exact absurd (h0.trans ((isEmptyName_iff_getD _).1 he)) hname

theorem inUse_of_findFileFd (st : FS) (fd i : Nat)
    (hopen : isEmptyName (st.openedFiles fd).filename = false)
    (h : findFileFd st.root st.openedFiles fd = .ok (some i)) : InUse st i := by
  apply inUse_of_findFile st _ _ i _ h
  rw [fdNameBytes_name st.openedFiles fd 0 (by decide)]
  intro e
  rw [(isEmptyName_iff_getD _).2 e] at hopen
  exact absurd hopen (by decide)

theorem getD_zero_of_mem (f : List Nat) (h : 0 ∈ f) : ∃ j, j < f.length ∧ f.getD j 0 = 0 := by
  obtain ⟨j, hj, e⟩ := List.mem_iff_getElem.1 h
  exact ⟨j, hj, by rw [List.getD_eq_getElem f 0 hj, e]⟩

theorem strlen_le_of_terminated (f : List Nat) (h : f.length = FILENAME_MAX_SIZE ∧ 0 ∈ f) :
    strlen f ≤ 15 := by
  obtain ⟨j, hj, e⟩ := getD_zero_of_mem f h.2
  unfold strlen
  by_contra hgt
  have := (cstr_getD_lt f j (by rw [h.1] at hj; unfold FILENAME_MAX_SIZE at hj; omega)).2
  exact this e

theorem strlen_le_of_match (root : Nat → fileInfo) (filename : List Nat) (i n : Nat)
    (hterm : strlen (root i).filename ≤ 15)
    (h : strcmp (argBytes filename) (rootNameBytes root i) n 0 = some true) :
    strlen filename ≤ 15 := by
  unfold strlen at hterm ⊢
  obtain ⟨k, _, hagree, ha, _⟩ := strcmp_eq_some_true _ _ n 0 h
  by_contra hgt
  have hk : (cstr (root i).filename).length < k := by
    by_contra hk
    have h1 : k < (cstr filename).length := by omega
    rw [Nat.zero_add, argBytes_getD filename k (by omega)] at ha
    exact (cstr_getD_lt filename k h1).2 ha
  have h2 := hagree (cstr (root i).filename).length hk
  rw [Nat.zero_add, rootNameBytes_name root i _ (by omega), cstr_getD_length] at h2
  exact h2.2 h2.1


theorem badFd_iff (st : FS) (fd : Int) :
    badFd st fd = true ↔
      (fd < 0 ∨ 31 < fd ∨ isEmptyName (st.openedFiles fd.toNat).filename = true) := by
  simp [badFd, MAX_OPEN_FILE_DESCRIPTORS, or_assoc]

theorem badFd_eq_false (st : FS) (fd : Int)
    (h : ¬ (fd < 0 ∨ 31 < fd ∨ isEmptyName (st.openedFiles fd.toNat).filename = true)) :
    badFd st fd = false := by
  cases hc : badFd st fd
  · rfl
  · exact absurd ((badFd_iff st fd).1 hc) h

theorem Res.bind_eq_ok {α β : Type} (r : Res α) (f : α → Res β) (b : β)
    (h : r.bind f = .ok b) : ∃ a, r = .ok a ∧ f a = .ok b := by
  cases r with
  | ok a => exact ⟨a, rfl, h⟩
  | hang => simp [Res.bind] at h
  | fault => simp [Res.bind] at h

theorem toInt32_of_lt {x : Int} (h0 : 0 ≤ x) (h1 : x < 2147483648) : toInt32 x = x := by
  unfold toInt32
  omega

theorem decodeSuperBlock_trunc (b buf : Block) :
    decodeSuperBlock (fun p => if p < BLOCK_BYTES then b p else buf p) = decodeSuperBlock b := by
  have h1 : (List.range 8).map (fun p => if p < BLOCK_BYTES then b p else buf p)
      = (List.range 8).map b := by
    apply List.map_congr_left
    intro p hp
    have : p < 8 := List.mem_range.1 hp
    simp [BLOCK_BYTES]; omega
  have h2 : (List.range 4079).map
        (fun k => (fun p => if p < BLOCK_BYTES then b p else buf p) (17 + k))
      = (List.range 4079).map (fun k => b (17 + k)) := by
    apply List.map_congr_left
    intro p hp
    have : p < 4079 := List.mem_range.1 hp
    simp [BLOCK_BYTES]; omega
  simp only [decodeSuperBlock, le16, h1, h2]
  simp [BLOCK_BYTES]

theorem readFatLoop_isSome (d : Disk) :
    ∀ (k i : Nat) (fat : Nat → Nat), i + k < d.count → ∃ f, readFatLoop d k i fat = some f := by
  intro k
  induction k with
  | zero => intro i fat _; exact ⟨fat, rfl⟩
  | succ k ih =>
    intro i fat h
    have h1 : 1 + i < d.count := by omega
    simp only [readFatLoop, block_read, h1, if_true]
    exact ih (i + 1) _ (by omega)

theorem IsChain_unique (fat : Nat → Nat) :
    ∀ (c c' : List Nat) (cur : Nat), IsChain fat cur c → IsChain fat cur c' → c = c' := by
  intro c
  induction c with
  | nil =>
    intro c' cur h h'
    cases c' with
    | nil => rfl
    | cons b bs => exact absurd h h'.1
  | cons b bs ih =>
    intro c' cur h h'
    cases c' with
    | nil => exact absurd h' h.1
    | cons b' bs' =>
      obtain ⟨_, hb, hrest⟩ := h
      obtain ⟨_, hb', hrest'⟩ := h'
      rw [hb, hb', ih bs' (fat cur) hrest hrest']

theorem IsChain_suffix (fat : Nat → Nat) (b : Nat) (l2 : List Nat) :
    ∀ (l1 : List Nat) (cur : Nat), IsChain fat cur (l1 ++ b :: l2) → IsChain fat b (b :: l2) := by
  intro l1
  induction l1 with
  | nil =>
    intro cur h
    obtain ⟨h1, h2, h3⟩ := h
    subst h2
    exact ⟨h1, rfl, h3⟩
  | cons a l1 ih =>
    intro cur h
    exact ih (fat cur) h.2.2

theorem IsChain_nodup (fat : Nat → Nat) :
    ∀ (c : List Nat) (cur : Nat), IsChain fat cur c → c.Nodup := by
  intro c
  induction c with
  | nil => intro _ _; exact List.nodup_nil
  | cons b bs ih =>
    intro cur h
    have hbs : bs.Nodup := ih (fat cur) h.2.2
    refine List.nodup_cons.2 ⟨?_, hbs⟩
    intro hmem
    obtain ⟨l1, l2, hsplit⟩ := List.append_of_mem hmem
    have h1 : IsChain fat b (b :: l2) := by
      apply IsChain_suffix fat b l2 l1 (fat cur)
      rw [← hsplit]; exact h.2.2
    have h2 : IsChain fat b (b :: bs) := by
      obtain ⟨hc, hb, hrest⟩ := h
      subst hb
      exact ⟨hc, rfl, hrest⟩
    have h3 := IsChain_unique fat _ _ b h1 h2
    have h4 : l2 = bs := List.tail_eq_of_cons_eq h3
    have h5 := congrArg List.length hsplit
    rw [← h4] at h5
    simp at h5
    omega

theorem IsChain_update (fat : Nat → Nat) (x v : Nat) :
    ∀ (c : List Nat) (cur : Nat), x ∉ c → IsChain fat cur c →
      IsChain (Function.update fat x v) cur c := by
  intro c
  induction c with
  | nil => intro cur _ h; exact h
  | cons b bs ih =>
    intro cur hx h
    obtain ⟨hc, hb, hrest⟩ := h
    have hne : cur ≠ x := by
      intro e
      apply hx
      rw [hb, e]
      exact List.mem_cons_self _ _
    refine ⟨hc, hb, ?_⟩
    rw [Function.update_noteq hne]
    exact ih (fat cur) (fun hm => hx (List.mem_cons_of_mem _ hm)) hrest

theorem IsChain_congr (fat fat' : Nat → Nat) :
    ∀ (c : List Nat) (cur : Nat), (∀ b ∈ c, fat' b = fat b) → IsChain fat cur c →
      IsChain fat' cur c := by
  intro c
  induction c with
  | nil => intro cur _ h; exact h
  | cons b bs ih =>
    intro cur hx h
    obtain ⟨hc, hb, hrest⟩ := h
    refine ⟨hc, hb, ?_⟩
    have : fat' cur = fat cur := by
      rw [← hb]; exact hx b (List.mem_cons_self _ _)
    rw [this]
    exact ih (fat cur) (fun y hy => hx y (List.mem_cons_of_mem _ hy)) hrest

theorem nodup_length_le (c : List Nat) (n : Nat) (hn : c.Nodup) (hb : ∀ b ∈ c, b < n) :
    c.length ≤ n := by
  have h1 : c.toFinset ⊆ Finset.range n := by
    intro x hx
    exact Finset.mem_range.2 (hb x (List.mem_toFinset.1 hx))
  have h2 := Finset.card_le_card h1
  rw [List.toFinset_card_of_nodup hn, Finset.card_range] at h2
  exact h2

theorem freeChain_spec (fatLen : Nat) :
    ∀ (c : List Nat) (fuel cur : Nat) (fat : Nat → Nat),
      IsChain fat cur c → (∀ b ∈ c, b < fatLen) → c.length ≤ fuel →
      freeChain fatLen fuel cur fat = .ok (fun j => if j ∈ c then 0 else fat j) := by
  intro c
  induction c with
  | nil =>
    intro fuel cur fat h _ _
    have hc : cur = 0xFFFF := h
    cases fuel <;> simp [freeChain, hc]
  | cons b bs ih =>
    intro fuel cur fat h hlt hlen
    have hnd : (b :: bs).Nodup := IsChain_nodup fat _ cur h
    obtain ⟨hc, hb, hrest⟩ := h
    subst hb
    cases fuel with
    | zero => simp at hlen
    | succ fuel =>
      have hb : b < fatLen := hlt b (List.mem_cons_self _ _)
      have hnot : b ∉ bs := (List.nodup_cons.1 hnd).1
      simp only [freeChain, hc, if_false, hb, if_true]
      rw [ih fuel (fat b) (Function.update fat b 0)
        (IsChain_update fat b 0 bs (fat b) hnot hrest)
        (fun y hy => hlt y (List.mem_cons_of_mem _ hy))
        (by simpa using hlen)]
      congr 1
      funext j
      by_cases hj : j = b
      · subst hj; simp [hnot]
      · simp [hj, Function.update_noteq hj]

theorem countP_update_zero (f : Nat → Nat) (b : Nat) (hf : f b ≠ 0) :
    ∀ n, b < n →
      (List.range n).countP (fun i => Function.update f b 0 i == 0)
        = (List.range n).countP (fun i => f i == 0) + 1 := by
  intro n
  induction n with
  | zero => intro h; omega
  | succ n ih =>
    intro h
    rw [List.range_succ, List.countP_append, List.countP_append]
    by_cases hb : b = n
    · subst hb
      have hsame : (List.range b).countP (fun i => Function.update f b 0 i == 0)
          = (List.range b).countP (fun i => f i == 0) := by
        apply List.countP_congr
        intro x hx
        have : x ≠ b := Nat.ne_of_lt (List.mem_range.1 hx)
        simp [Function.update_noteq this]
      rw [hsame]
      simp [hf]
    · have hlt : b < n := by omega
      rw [ih hlt]
      have hn : n ≠ b := fun e => hb e.symm
      have e : List.countP (fun i => Function.update f b 0 i == 0) [n]
          = List.countP (fun i => f i == 0) [n] := by
        simp [List.countP_cons, Function.update_noteq hn]
      rw [e]
      omega

theorem countP_free_chain (f : Nat → Nat) (n : Nat) :
    ∀ c : List Nat, c.Nodup → (∀ b ∈ c, b < n ∧ f b ≠ 0) →
      (List.range n).countP (fun i => (if i ∈ c then 0 else f i) == 0)
        = (List.range n).countP (fun i => f i == 0) + c.length := by
  intro c
  induction c with
  | nil => intro _ _; simp
  | cons b bs ih =>
    intro hnd hb
    have hnot : b ∉ bs := (List.nodup_cons.1 hnd).1
    have hbs := ih (List.nodup_cons.1 hnd).2 (fun y hy => hb y (List.mem_cons_of_mem _ hy))
    have hfb := hb b (List.mem_cons_self _ _)
    have hg : (fun i => if i ∈ bs then 0 else f i) b ≠ 0 := by simp [hnot, hfb.2]
    have := countP_update_zero (fun i => if i ∈ bs then 0 else f i) b hg n hfb.1
    have heq : (fun i => (if i ∈ b :: bs then 0 else f i) == 0)
        = (fun i => Function.update (fun i => if i ∈ bs then 0 else f i) b 0 i == 0) := by
      funext i
      by_cases hi : i = b
      · subst hi; simp
      · simp [hi, Function.update_noteq hi]
    rw [heq, this, hbs]
    simp
    omega


theorem isEmptyName_clearName (field : List Nat) : isEmptyName (clearName field) = true := by
  cases field <;> simp [isEmptyName, clearName]

theorem fs_write_root (st : FS) (bounce buf : Block) (fd : Int) (count : Nat) (r : FS × Int)
    (hret : fs_write st bounce fd buf count = .ok r) (i : Nat) :
    (r.1.root i).filename = (st.root i).filename ∧
    (r.1.root i).firstIndex = (st.root i).firstIndex := by
  by_cases hb : badFd st fd = true
  · simp only [fs_write, hb, if_true] at hret
    cases hret; exact ⟨rfl, rfl⟩
  by_cases hc : count = 0
  · simp only [fs_write, hb, hc, if_true, if_false] at hret
    cases hret; exact ⟨rfl, rfl⟩
  simp only [fs_write, hb, hc, if_false] at hret
  obtain ⟨found, _, h0⟩ := Res.bind_eq_ok _ _ _ hret
  cases found with
  | none => cases h0
  | some fileIndex =>
    obtain ⟨a1, _, h1⟩ := Res.bind_eq_ok _ _ _ h0
    obtain ⟨a2, _, h2⟩ := Res.bind_eq_ok _ _ _ h1
    obtain ⟨a3, _, h3⟩ := Res.bind_eq_ok _ _ _ h2
    have h4 := Res.ok.inj h3
    subst h4
    by_cases hi : i = fileIndex
    · subst hi; simp [Function.update_same]
    · simp [Function.update_noteq hi]

theorem inUse_twoFileVolume (i : Nat) : InUse twoFileVolume i ↔ i = 0 ∨ i = 1 := by
  constructor
  · rintro ⟨_, h⟩
    by_cases h0 : i = 0
    · exact Or.inl h0
    by_cases h1 : i = 1
    · exact Or.inr h1
    simp [twoFileVolume, h0, h1, freeEntry, isEmptyName] at h
  · rintro (h | h) <;> subst h <;> exact ⟨by decide, by decide⟩

theorem chain_a_twoFileVolume (c : List Nat)
    (h : IsChain twoFileVolume.fat (twoFileVolume.root 0).firstIndex c) : c = [0] :=
  IsChain_unique twoFileVolume.fat c [0] _ h (by simp [IsChain, twoFileVolume])

theorem chain_b_twoFileVolume (c : List Nat)
    (h : IsChain twoFileVolume.fat (twoFileVolume.root 1).firstIndex c) : c = [2] :=
  IsChain_unique twoFileVolume.fat c [2] _ h (by simp [IsChain, twoFileVolume])

theorem twoFileVolume_wellFormed : WellFormed twoFileVolume where
  fat_fits := by decide
  blocks_u16 := by decide
  chains := by
    intro i hi
    rcases (inUse_twoFileVolume i).1 hi with h | h <;> subst h
    · exact ⟨[0], by simp [IsChain, twoFileVolume], by simp, by simp [twoFileVolume, smallSuperBlock]⟩
    · exact ⟨[2], by simp [IsChain, twoFileVolume], by simp, by simp [twoFileVolume, smallSuperBlock]⟩
  disjoint := by
    intro i i' c c' hi hi' hne hc hc'
    rcases (inUse_twoFileVolume i).1 hi with h | h <;>
      rcases (inUse_twoFileVolume i').1 hi' with h' | h' <;> subst h <;> subst h'
    · exact absurd rfl hne
    · rw [chain_a_twoFileVolume c hc, chain_b_twoFileVolume c' hc']; simp
    · rw [chain_b_twoFileVolume c hc, chain_a_twoFileVolume c' hc']; simp
    · exact absurd rfl hne
  no_leak := by
    intro j hj hne
    have hj3 : j < 3 := hj
    interval_cases j
    · exact ⟨0, [0], (inUse_twoFileVolume 0).2 (Or.inl rfl), by simp [IsChain, twoFileVolume], by simp⟩
    · exact absurd (by simp [twoFileVolume]) hne
    · exact ⟨1, [2], (inUse_twoFileVolume 1).2 (Or.inr rfl), by simp [IsChain, twoFileVolume], by simp⟩
  names_terminated := by
    intro i _
    by_cases h0 : i = 0
    · subst h0; exact ⟨by decide, by decide⟩
    by_cases h1 : i = 1
    · subst h1; exact ⟨by decide, by decide⟩
    simp [twoFileVolume, h0, h1, freeEntry, FILENAME_MAX_SIZE]
  names_unique := by
    intro i i' hi hi' hname
    rcases (inUse_twoFileVolume i).1 hi with h | h <;>
      rcases (inUse_twoFileVolume i').1 hi' with h' | h' <;> subst h <;> subst h'
    · rfl
    · exact absurd hname (by decide)
    · exact absurd hname (by decide)
    · rfl

theorem wellFormed_chainPartition (st : FS) (hwf : WellFormed st) : ChainPartition st := by
  intro j hj
  by_cases h0 : st.fat j = 0
  · left
    refine ⟨h0, ?_⟩
    intro i c hi hc hmem
    obtain ⟨c0, hc0, _, hall⟩ := hwf.chains i hi
    have : c = c0 := IsChain_unique st.fat c c0 _ hc hc0
    subst this
    exact (hall j hmem).2 h0
  · right
    refine ⟨h0, ?_⟩
    obtain ⟨i, c, hi, hc, hmem⟩ := hwf.no_leak j hj h0
    refine ⟨i, ⟨hi, c, hc, hmem⟩, ?_⟩
    rintro i' ⟨hi', c', hc', hmem'⟩
    by_contra hne
    exact hwf.disjoint i' i c' c hi' hi hne hc' hc j hmem' hmem

theorem no_chain_on_cycle (fat : Nat → Nat) (h0 : fat 0 = 1) (h1 : fat 1 = 0) :
    ∀ c : List Nat, ¬ IsChain fat 0 c ∧ ¬ IsChain fat 1 c := by
  intro c
  induction c with
  | nil => exact ⟨by simp [IsChain], by simp [IsChain]⟩
  | cons b bs ih =>
    constructor
    · intro h
      have := h.2.2
      rw [h0] at this
      exact ih.2 this
    · intro h
      have := h.2.2
      rw [h1] at this
      exact ih.1 this

/-! ## C1: round trip -/

/-- C1 (evaluation at a failing input): on the empty volume, the sequence
create, open, write, close, open, read, stat with the two data bytes 0, 1 and
N = 2 gives `fs_read` = 2 and `fs_stat` = 2, but the buffer read back holds
0, 0: `strncpy` stops at the zero byte and pads, so the byte 1 is lost. -/
theorem round_trip_zero_byte :
    zeroOne 0 = 0 ∧ zeroOne 1 = 1 ∧
    (roundTrip emptyVolume sevens sevens [97] zeroOne 2 zeros).val?.map
      (fun r => (r.1 0, r.1 1, r.2)) = some (0, 0, 2, 2) := by
  decide

/-! ## C2: fs_mount validates the superblock -/

/-- C2: when the device opens and block 0 can be read, `fs_mount` returns 0 if
and only if the superblock in block 0 has the signature, the block count of the
device and the geometry of the spec, and returns -1 when one of these fails
(the reads of the FAT and root directory blocks then succeed by the geometry). -/
theorem mount_ok_iff (openedFiles : Nat → fileDescriptor) (d : Disk) (h : 0 < d.count) :
    ((fs_mount openedFiles (some d)).1 = 0 ↔ GeometryOK (decodeSuperBlock (d.blocks 0)) d.count) ∧
    (¬ GeometryOK (decodeSuperBlock (d.blocks 0)) d.count →
      (fs_mount openedFiles (some d)).1 = -1) := by
  have key : ((fs_mount openedFiles (some d)).1 = 0 ∧
        GeometryOK (decodeSuperBlock (d.blocks 0)) d.count) ∨
      ((fs_mount openedFiles (some d)).1 = -1 ∧
        ¬ GeometryOK (decodeSuperBlock (d.blocks 0)) d.count) := by
    simp only [fs_mount, block_read, h, if_true, decodeSuperBlock_trunc]
    generalize decodeSuperBlock (d.blocks 0) = sb
    unfold GeometryOK
    split_ifs
    all_goals first
      | (right
         refine ⟨rfl, ?_⟩
         rintro ⟨g1, g2, g3, g4, g5, g6⟩
         first | contradiction | omega)
      | (exfalso; omega)
      | (left
         obtain ⟨f, hf⟩ := readFatLoop_isSome d sb.numFBlocks 0 (fun _ => 0) (by omega)
         refine ⟨by simp [hf], by tauto, by tauto, by omega, by tauto, by tauto, by tauto⟩)
  constructor
  · constructor
    · intro h0
      rcases key with ⟨_, hg⟩ | ⟨hm, _⟩
      · exact hg
      · rw [hm] at h0; exact absurd h0 (by decide)
    · intro hg
      rcases key with ⟨hm, _⟩ | ⟨_, hn⟩
      · exact hm
      · exact absurd hg hn
  · intro hn
    rcases key with ⟨_, hg⟩ | ⟨hm, _⟩
    · exact absurd hg hn
    · exact hm

/-- Witness for C2 on a formatted device of 6 blocks, which mounts. -/
theorem mount_ok_iff_witness :
    0 < formattedDisk.count ∧
    (fs_mount (fun _ => closedFd) (some formattedDisk)).1 = 0 ∧
    ((fs_mount (fun _ => closedFd) (some formattedDisk)).1 = 0 ↔
      GeometryOK (decodeSuperBlock (formattedDisk.blocks 0)) formattedDisk.count) :=
  ⟨by decide, by decide, (mount_ok_iff (fun _ => closedFd) formattedDisk (by decide)).1⟩

/-! ## C3: chain partition invariant -/

/-- C3 (evaluation at a failing input): the volume `twoFileVolume` satisfies the
chain partition invariant and has one free block.  A write of 12288 bytes (three
blocks) to the one-block file "a" returns 12288 and leaves a state that breaks
the invariant: the single free block is linked behind the file without being
marked `0xFFFF`, so the chain of "a" runs 0, 1, 0, 1, ... and never ends. -/
theorem write_breaks_chain_partition :
    ChainPartition twoFileVolume ∧
    ∃ r, fs_write twoFileVolume zeros 0 sevens 12288 = .ok r ∧ r.2 = 12288 ∧
      ¬ ChainPartition r.1 := by
  refine ⟨wellFormed_chainPartition _ twoFileVolume_wellFormed, ?_⟩
  have hfacts : (fs_write twoFileVolume zeros 0 sevens 12288).val?.map
      (fun r => (r.2, r.1.sb.numDBlocks, r.1.fat 0, r.1.fat 1, r.1.fat 2))
        = some (12288, 3, 1, 0, 65535) := by decide
  cases h : fs_write twoFileVolume zeros 0 sevens 12288 with
  | hang => rw [h] at hfacts; exact absurd hfacts (by simp [Res.val?])
  | fault => rw [h] at hfacts; exact absurd hfacts (by simp [Res.val?])
  | ok r =>
    rw [h] at hfacts
    simp only [Res.val?, Option.map_some', Option.some.injEq, Prod.mk.injEq] at hfacts
    obtain ⟨hret, hn, hf0, hf1, hf2⟩ := hfacts
    refine ⟨r, rfl, hret, ?_⟩
    intro hP
    have hroot := fs_write_root twoFileVolume zeros sevens 0 12288 r h
    rcases hP 0 (by rw [hn]; decide) with ⟨hz, _⟩ | ⟨_, i, ⟨hi, c, hc, hmem⟩, _⟩
    · rw [hf0] at hz; exact absurd hz (by decide)
    · have hi' : InUse twoFileVolume i := ⟨hi.1, by rw [← (hroot i).1]; exact hi.2⟩
      rw [(hroot i).2] at hc
      rcases (inUse_twoFileVolume i).1 hi' with e | e <;> subst e
      · exact (no_chain_on_cycle r.1.fat hf0 hf1 c).1 hc
      · have : c = [2] :=
          IsChain_unique r.1.fat c [2] _ hc (by simp [IsChain, twoFileVolume, hf2])
        rw [this] at hmem
        simp at hmem

/-! ## C4: size and cursor after fs_write -/

/-- C5 (evaluation at failing inputs): with the cursor at 1 in a one-block file
and free blocks left, `fs_write` of 2 bytes returns 1 (count minus cursor) while
it moves the size and the cursor to 3; and with one free block where two are
needed, `fs_write` of 12288 bytes returns 12288, not a short count. -/
theorem write_returns_count_minus_cursor :
    (fs_write (oneFileVolume 1 1) zeros 0 sevens 2).val?.map
      (fun r => (r.2, (r.1.root 0).size, (r.1.openedFiles 0).offset)) = some (1, 3, 3) ∧
    freeFat twoFileVolume = 1 ∧
    (fs_write twoFileVolume zeros 0 sevens 12288).val?.map (fun r => r.2) = some 12288 := by
  decide

/-! ## C6: value returned by fs_read -/

/-- C6 (evaluation at failing inputs): on a file of size 5, `fs_read` of 10
bytes at cursor 0 returns 10, not min(10, 5 - 0) = 5; at cursor 5 (end of file)
it returns 5, not 0.  The cursor ends at 5 both times. -/
theorem read_returns_count_minus_cursor :
    (fs_read (oneFileVolume 5 0) zeros 0 zeros 10).val?.map
      (fun r => (r.2.2, (r.1.openedFiles 0).offset)) = some (10, 5) ∧
    (fs_read (oneFileVolume 5 5) zeros 0 zeros 10).val?.map
      (fun r => (r.2.2, (r.1.openedFiles 0).offset)) = some (5, 5) := by
  decide

/-! ## C7: bytes outside the written range -/

/-- C7 (evaluation at a failing input): file "a" holds the two bytes 5, 5 in data
block 0 (device block 3).  A write of the single byte 7 at cursor 0 succeeds
(returns 1) and leaves at position 1 of the block the byte that the stack array
`bounce` held, whatever it was: the block is never read before it is written. -/
theorem write_loses_rest_of_block (bounce : Block) :
    ((oneFileVolume 2 0).root 0).size = 2 ∧
    (oneFileVolume 2 0).disk.blocks 3 1 = 5 ∧
    (fs_write (oneFileVolume 2 0) bounce 0 sevens 1).val?.map
      (fun r => (r.2, r.1.disk.blocks 3 0, r.1.disk.blocks 3 1)) = some (1, 7, bounce 1) :=
  ⟨rfl, rfl, rfl⟩

/-! ## C8: invalid handles and empty transfers -/

/-- C8: for every fd outside 0..31 and every fd whose descriptor slot is
closed, `fs_read` and `fs_write` return -1; for every open fd they return 0
when count is 0; in all these cases the whole state (FAT, root directory,
descriptor table with its cursors, device) and the buffer of the caller are
unchanged. -/
theorem read_write_invalid_or_empty (st : FS) (bounce buf : Block) (fd : Int) (count : Nat) :
    ((fd < 0 ∨ 31 < fd ∨ isEmptyName (st.openedFiles fd.toNat).filename = true) →
      fs_read st bounce fd buf count = .ok (st, buf, -1) ∧
      fs_write st bounce fd buf count = .ok (st, -1)) ∧
    (¬ (fd < 0 ∨ 31 < fd ∨ isEmptyName (st.openedFiles fd.toNat).filename = true) →
      fs_read st bounce fd buf 0 = .ok (st, buf, 0) ∧
      fs_write st bounce fd buf 0 = .ok (st, 0)) := by
  constructor
  · intro h
    have hb : badFd st fd = true := (badFd_iff st fd).2 h
    simp [fs_read, fs_write, hb]
  · intro h
    have hb : badFd st fd = false := badFd_eq_false st fd h
    simp [fs_read, fs_write, hb]

/-- Witness for C8: descriptor 0 is closed on the empty volume and open on the
one-file volume. -/
theorem read_write_invalid_or_empty_witness :
    (fs_read emptyVolume zeros 0 sevens 5 = .ok (emptyVolume, sevens, -1) ∧
      fs_write emptyVolume zeros 0 sevens 5 = .ok (emptyVolume, -1)) ∧
    (fs_read (oneFileVolume 2 0) zeros 0 sevens 0 = .ok (oneFileVolume 2 0, sevens, 0) ∧
      fs_write (oneFileVolume 2 0) zeros 0 sevens 0 = .ok (oneFileVolume 2 0, 0)) :=
  ⟨(read_write_invalid_or_empty emptyVolume zeros sevens 0 5).1 (Or.inr (Or.inr (by decide))),
   (read_write_invalid_or_empty (oneFileVolume 2 0) zeros sevens 0 0).2 (by decide)⟩

/-! ## C9: seek boundary -/

/-- C10: on a well-formed volume, for the name of an existing file (found at
entry `fileIndex`, which is in use): while a descriptor holds the name,
`fs_delete` returns -1 and changes nothing; when no descriptor holds it,
`fs_delete` returns 0, the entry becomes free, every block of the chain of the
file has FAT entry 0, the number of free FAT entries grows by the length of the
chain, every other FAT entry and directory entry is unchanged, and the chain of
every other file is still its chain. -/
theorem delete_guard (st : FS) (hwf : WellFormed st) (filename : List Nat) (fileIndex : Nat)
    (hfind : findFileArg st.root filename = .ok (some fileIndex)) (huse : InUse st fileIndex) :
    ((∃ i, i < MAX_OPEN_FILE_DESCRIPTORS ∧
        sameName filename (st.openedFiles i).filename = true) →
      fs_delete st filename = .ok (st, -1)) ∧
    ((∀ i, i < MAX_OPEN_FILE_DESCRIPTORS →
        sameName filename (st.openedFiles i).filename = false) →
      ∃ st' c, fs_delete st filename = .ok (st', 0) ∧
        IsChain st.fat (st.root fileIndex).firstIndex c ∧
        isEmptyName (st'.root fileIndex).filename = true ∧
        (∀ b ∈ c, st'.fat b = 0) ∧
        freeFat st' = freeFat st + c.length ∧
        (∀ j, j ∉ c → st'.fat j = st.fat j) ∧
        (∀ i, i ≠ fileIndex → st'.root i = st.root i) ∧
        (∀ i c', InUse st i → i ≠ fileIndex → IsChain st.fat (st.root i).firstIndex c' →
          IsChain st'.fat (st'.root i).firstIndex c')) := by
  have hlen : strlen filename ≤ 15 :=
    strlen_le_of_match st.root filename fileIndex _
      (strlen_le_of_terminated _ (hwf.names_terminated fileIndex huse.1))
      (findFile_eq_some _ _ _ _ hfind).2
  have hheld := findOpen_eq st.openedFiles filename hlen
  constructor
  · rintro ⟨i, hi, hopen⟩
    cases hany : (List.range MAX_OPEN_FILE_DESCRIPTORS).find?
        (fun i => sameName filename (st.openedFiles i).filename) with
    | none =>
      have := List.find?_eq_none.1 hany i (List.mem_range.2 hi)
      exact absurd hopen this
    | some j =>
      rw [hany] at hheld
      simp only [fs_delete, hfind, hheld, Res.bind]
  · intro hclosed
    have hany : (List.range MAX_OPEN_FILE_DESCRIPTORS).find?
        (fun i => sameName filename (st.openedFiles i).filename) = none := by
      rw [List.find?_eq_none]
      intro x hx
      simp [hclosed x (List.mem_range.1 hx)]
    rw [hany] at hheld
    obtain ⟨c, hc, _, hmem⟩ := hwf.chains fileIndex huse
    have hnd : c.Nodup := IsChain_nodup st.fat c _ hc
    have hlen : c.length ≤ WALK_FUEL := by
      have h1 := nodup_length_le c st.sb.numDBlocks hnd (fun b hb => (hmem b hb).1)
      have h2 := hwf.blocks_u16
      simp only [WALK_FUEL]
      omega
    have hfree := freeChain_spec st.fatLen c WALK_FUEL _ st.fat hc
      (fun b hb => Nat.lt_of_lt_of_le (hmem b hb).1 hwf.fat_fits) hlen
    refine ⟨{ st with
                fat := fun j => if j ∈ c then 0 else st.fat j
                root := Function.update st.root fileIndex
                  { st.root fileIndex with
                    filename := clearName (st.root fileIndex).filename } },
      c, ?_, hc, ?_, ?_, ?_, ?_, ?_, ?_⟩
    · simp only [fs_delete, hfind, hheld, hfree, Res.bind]
    · simp [isEmptyName_clearName]
    · intro b hb
      simp [hb]
    · simp only [freeFat]
      exact countP_free_chain st.fat st.sb.numDBlocks c hnd hmem
    · intro j hj
      simp [hj]
    · intro i hi
      simp [Function.update_noteq hi]
    · intro i c' hi hne hc'
      simp only [Function.update_noteq hne]
      apply IsChain_congr st.fat _ c' _ _ hc'
      intro b hb
      have : b ∉ c := fun hbc => hwf.disjoint fileIndex i c c' huse hi (Ne.symm hne) hc hc' b hbc hb
      simp [this]

/-- Witness for C10: on `twoFileVolume`, file "a" is open and cannot be deleted,
file "b" is not open and its one-block chain is freed. -/
theorem delete_guard_witness :
    WellFormed twoFileVolume ∧
    fs_delete twoFileVolume [97] = .ok (twoFileVolume, -1) ∧
    ∃ st', fs_delete twoFileVolume [98] = .ok (st', 0) ∧
      isEmptyName (st'.root 1).filename = true ∧ freeFat st' = freeFat twoFileVolume + 1 := by
  have hwf := twoFileVolume_wellFormed
  refine ⟨hwf, ?_, ?_⟩
  · exact (delete_guard twoFileVolume hwf [97] 0 (by decide) ⟨by decide, by decide⟩).1
      ⟨0, by decide, by decide⟩
  · obtain ⟨st', c, h1, h2, h3, _, h5, _⟩ :=
      (delete_guard twoFileVolume hwf [98] 1 (by decide) ⟨by decide, by decide⟩).2 (by decide)
    have hc : c = [2] := chain_b_twoFileVolume c h2
    subst hc
    exact ⟨st', h1, h3, h5⟩

/-! ## Auxiliary lemmas: names, lookups, layout -/

theorem cstr_all_ne_zero (s : List Nat) : ∀ a ∈ cstr s, (a != 0) = true := by
  intro a ha
  exact @List.mem_takeWhile_imp Nat (fun c => c != 0) s a ha

theorem cstr_cstr (s : List Nat) : cstr (cstr s) = cstr s := by
  unfold cstr
  exact List.takeWhile_eq_self_iff.2
    (fun x hx => @List.mem_takeWhile_imp Nat (fun c => c != 0) s x hx)

theorem cstr_strcpy (dst src : List Nat) (h : strlen src ≤ FILENAME_MAX_SIZE) :
    cstr (strcpy dst src) = cstr src := by
  unfold strlen FILENAME_MAX_SIZE at h
  unfold strcpy FILENAME_MAX_SIZE
  rw [List.take_append_eq_append_take, List.take_of_length_le h]
  by_cases h16 : (cstr src).length = 16
  · rw [h16]
    simp only [Nat.sub_self, List.take_zero, List.append_nil]
    exact cstr_cstr src
  · have hpos : 16 - (cstr src).length = (15 - (cstr src).length) + 1 := by omega
    rw [hpos, List.take_succ_cons]
    show List.takeWhile (fun c => c != 0) _ = _
    rw [List.takeWhile_append_of_pos (cstr_all_ne_zero src)]
    simp [List.takeWhile_cons]

theorem cstr_of_isEmptyName (f : List Nat) (h : isEmptyName f = true) : cstr f = [] := by
  cases f with
  | nil => rfl
  | cons x xs =>
    have hx : x = 0 := by simpa [isEmptyName] using h
    subst hx
    simp [cstr, List.takeWhile_cons]

theorem cstr_ne_nil_of_not_isEmptyName (f : List Nat) (h : isEmptyName f = false) :
    cstr f ≠ [] := by
  cases f with
  | nil => simp [isEmptyName] at h
  | cons x xs =>
    have hx : x ≠ 0 := by simpa [isEmptyName] using h
    simp [cstr, List.takeWhile_cons, hx]

theorem isEmptyName_strcpy (dst src : List Nat) (h : cstr src ≠ []) :
    isEmptyName (strcpy dst src) = false := by
  unfold strcpy FILENAME_MAX_SIZE
  cases hc : cstr src with
  | nil => exact absurd hc h
  | cons x xs =>
    have hx : (x != 0) = true := cstr_all_ne_zero src x (by rw [hc]; exact List.mem_cons_self _ _)
    have hx' : x ≠ 0 := by simpa using hx
    simp [isEmptyName, hx']

theorem no_duplicate_of_new (st : FS) (filename : List Nat) (hne : cstr filename ≠ [])
    (hnew : ∀ i, InUse st i → cstr (st.root i).filename ≠ cstr filename) :
    findName st.root filename = none := by
  unfold findName
  rw [List.find?_eq_none]
  intro i hi hcmp
  have hlt : i < NUM_ROOTDIR_ENTRIES := List.mem_range.1 hi
  have heq : cstr filename = cstr (st.root i).filename := (sameName_eq_true_iff _ _).1 hcmp
  cases hemp : isEmptyName (st.root i).filename
  · exact hnew i ⟨hlt, hemp⟩ heq.symm
  · rw [cstr_of_isEmptyName _ hemp] at heq
    exact hne heq

theorem findFreeEntry_eq_some (root : Nat → fileInfo) (e : Nat) (he : e < NUM_ROOTDIR_ENTRIES)
    (hfree : isEmptyName (root e).filename = true)
    (hleast : ∀ j, j < e → isEmptyName (root j).filename = false) :
    findFreeEntry root = some e := by
  unfold findFreeEntry
  rw [List.find?_range_eq_some]
  refine ⟨hfree, List.mem_range.2 he, ?_⟩
  intro j hj
  simp [hleast j hj]

theorem fs_open_spec (st : FS) (filename : List Nat) (fileIndex h : Nat)
    (hlen : strlen filename ≤ 15)
    (hfind : findName st.root filename = some fileIndex)
    (hh : h < MAX_OPEN_FILE_DESCRIPTORS)
    (hclosed : isEmptyName (st.openedFiles h).filename = true)
    (hleast : ∀ j, j < h → isEmptyName (st.openedFiles j).filename = false) :
    fs_open st filename =
      .ok ({ st with
              openedFiles := Function.update st.openedFiles h
                { filename := strcpy (st.openedFiles h).filename filename, offset := 0 } },
           (h : Int)) := by
  have hnum : ¬ (List.range MAX_OPEN_FILE_DESCRIPTORS).countP
      (fun i => !isEmptyName (st.openedFiles i).filename) = MAX_OPEN_FILE_DESCRIPTORS := by
    intro hall
    have hall' : (List.range MAX_OPEN_FILE_DESCRIPTORS).countP
        (fun i => !isEmptyName (st.openedFiles i).filename)
          = (List.range MAX_OPEN_FILE_DESCRIPTORS).length := by
      rw [List.length_range]; exact hall
    have hopen := List.countP_eq_length.1 hall' h (List.mem_range.2 hh)
    simp [hclosed] at hopen
  have hfd : findFreeFd st.openedFiles = some h := by
    unfold findFreeFd
    rw [List.find?_range_eq_some]
    refine ⟨hclosed, List.mem_range.2 hh, ?_⟩
    intro j hj
    simp [hleast j hj]
  have hfind1 : findFileArg st.root filename = .ok (some fileIndex) := by
    rw [findFileArg_eq st.root filename hlen, hfind]
  have hfit : ¬ (strlen filename + 1 > 20) := by omega
  simp only [fs_open, hnum, hfind1, hfd, hfit, Res.bind, if_false]


theorem cstr_ne_nil_of_found (st : FS) (filename : List Nat) (fileIndex : Nat)
    (hfind : findName st.root filename = some fileIndex) (huse : InUse st fileIndex) :
    cstr filename ≠ [] := by
  have hcmp : sameName filename (st.root fileIndex).filename = true := by
    unfold findName at hfind
    exact @List.find?_some Nat (fun i => sameName filename (st.root i).filename) fileIndex
      (List.range NUM_ROOTDIR_ENTRIES) hfind
  rw [(sameName_eq_true_iff _ _).1 hcmp]
  exact cstr_ne_nil_of_not_isEmptyName _ huse.2

theorem unique_after_store (st st' : FS) (e : Nat) (filename : List Nat)
    (hu : UniqueNames st) (hlen : strlen filename ≤ FILENAME_MAX_SIZE)
    (hdup : findName st.root filename = none)
    (he : (st'.root e).filename = strcpy (st.root e).filename filename)
    (hother : ∀ i, i ≠ e → (st'.root i).filename = (st.root i).filename) :
    UniqueNames st' := by
  have hnodup : ∀ i, i < NUM_ROOTDIR_ENTRIES → cstr (st.root i).filename ≠ cstr filename := by
    intro i hi heq
    unfold findName at hdup
    have := List.find?_eq_none.1 hdup i (List.mem_range.2 hi)
    exact this ((sameName_eq_true_iff _ _).2 heq.symm)
  have hnew : cstr (st'.root e).filename = cstr filename := by
    rw [he]; exact cstr_strcpy _ _ hlen
  intro i i' hi hi' heq
  by_cases h1 : i = e <;> by_cases h2 : i' = e
  · rw [h1, h2]
  · exfalso
    rw [h1, hnew, hother i' h2] at heq
    exact hnodup i' hi'.1 heq.symm
  · exfalso
    rw [h2, hnew, hother i h1] at heq
    exact hnodup i hi.1 heq
  · rw [hother i h1, hother i' h2] at heq
    exact hu i i' ⟨hi.1, by rw [← hother i h1]; exact hi.2⟩
      ⟨hi'.1, by rw [← hother i' h2]; exact hi'.2⟩ heq

theorem create_unique (st : FS) (filename : List Nat) (hlen : strlen filename ≤ 15)
    (hu : UniqueNames st) : UniqueNames (fs_create st filename).1 := by
  have h1 : ¬ (strlen filename > FILENAME_MAX_SIZE) := by
    unfold FILENAME_MAX_SIZE
    omega
  have hf := findFileArg_eq st.root filename hlen
  cases h2 : findName st.root filename with
  | some i =>
    rw [h2] at hf
    simp only [fs_create, h1, hf, if_false]; exact hu
  | none =>
    rw [h2] at hf
    cases h3 : findFreeEntry st.root with
    | none => simp only [fs_create, h1, hf, h3, if_false]; exact hu
    | some e =>
      cases h4 : (List.range st.sb.numDBlocks).find? (fun i => st.fat i == 0) with
      | none =>
        simp only [fs_create, h1, hf, h3, h4, if_false]
        apply unique_after_store st _ e filename hu (Nat.le_of_not_lt h1) h2
        · simp only [Function.update_same]
        · intro i hi
          simp only [Function.update_noteq hi]
      | some f =>
        simp only [fs_create, h1, hf, h3, h4, if_false]
        apply unique_after_store st _ e filename hu (Nat.le_of_not_lt h1) h2
        · simp only [Function.update_same]
        · intro i hi
          simp only [Function.update_noteq hi]

theorem delete_unique (st : FS) (filename : List Nat) (r : FS × Int) (hu : UniqueNames st)
    (hret : fs_delete st filename = .ok r) : UniqueNames r.1 := by
  unfold fs_delete at hret
  obtain ⟨found, _, hret1⟩ := Res.bind_eq_ok _ _ _ hret
  cases found with
  | none => cases hret1; exact hu
  | some fileIndex =>
    obtain ⟨held, _, hret2⟩ := Res.bind_eq_ok _ _ _ hret1
    cases held with
    | some j => cases hret2; exact hu
    | none =>
    obtain ⟨fat1, _, h1⟩ := Res.bind_eq_ok _ _ _ hret2
    have h2 := Res.ok.inj h1
    subst h2
    intro i i' hi hi' heq
    have hne : ∀ j, InUse
        { st with
          fat := fat1
          root := Function.update st.root fileIndex
            { st.root fileIndex with filename := clearName (st.root fileIndex).filename } } j →
        j ≠ fileIndex := by
      intro j hj e
      subst e
      have := hj.2
      simp only [Function.update_same, isEmptyName_clearName] at this
      exact absurd this (by decide)
    have hi1 := hne i hi
    have hi1' := hne i' hi'
    have hroot : ∀ j, j ≠ fileIndex →
        (Function.update st.root fileIndex
          { st.root fileIndex with filename := clearName (st.root fileIndex).filename }) j
          = st.root j := fun j hj => Function.update_noteq hj _ _
    have e1 := hroot i hi1
    have e2 := hroot i' hi1'
    simp only [e1, e2] at heq
    exact hu i i' ⟨hi.1, by have := hi.2; simp only [e1] at this; exact this⟩
      ⟨hi'.1, by have := hi'.2; simp only [e2] at this; exact this⟩ heq

theorem dirStep_unique (st st1 : FS) (op : DirOp) (hu : UniqueNames st)
    (hshort : ∀ filename, op = .create filename → strlen filename ≤ 15)
    (h : dirStep st op = .ok st1) : UniqueNames st1 := by
  cases op with
  | create filename =>
    simp only [dirStep] at h
    have := Res.ok.inj h
    subst this
    exact create_unique st filename (hshort filename rfl) hu
  | delete filename =>
    simp only [dirStep] at h
    obtain ⟨r, hr, h1⟩ := Res.bind_eq_ok _ _ _ h
    have := Res.ok.inj h1
    subst this
    exact delete_unique st filename r hu hr

theorem getD_map_range (n : Nat) (f : Nat → Nat) (i : Nat) (h : i < n) :
    ((List.range n).map f).getD i 0 = f i := by
  have hlen : i < ((List.range n).map f).length := by simp [h]
  rw [List.getD_eq_getElem _ _ hlen]
  simp

theorem byteOf_le16 (x y : Nat) (hx : x < 256) (hy : y < 256) :
    byteOf (x + 256 * y) 0 = x ∧ byteOf (x + 256 * y) 1 = y := by
  unfold byteOf
  constructor
  · simp; omega
  · simp; omega

theorem byteOf_le32 (x y z w : Nat) (hx : x < 256) (hy : y < 256) (hz : z < 256)
    (hw : w < 256) :
    byteOf (x + 256 * y + 65536 * z + 16777216 * w) 0 = x ∧
    byteOf (x + 256 * y + 65536 * z + 16777216 * w) 1 = y ∧
    byteOf (x + 256 * y + 65536 * z + 16777216 * w) 2 = z ∧
    byteOf (x + 256 * y + 65536 * z + 16777216 * w) 3 = w := by
  unfold byteOf
  refine ⟨?_, ?_, ?_, ?_⟩
  · simp; omega
  · simp; omega
  · norm_num; omega
  · norm_num; omega

theorem encode_decode_superBlock (b : Block) (hb : ∀ p, b p < 256) (p : Nat)
    (hp : p < BLOCK_BYTES) : encodeSuperBlock (decodeSuperBlock b) p = b p := by
  unfold BLOCK_BYTES at hp
  unfold encodeSuperBlock decodeSuperBlock
  dsimp only
  have h8 := byteOf_le16 (b 8) (b 9) (hb 8) (hb 9)
  have h10 := byteOf_le16 (b 10) (b 11) (hb 10) (hb 11)
  have h12 := byteOf_le16 (b 12) (b 13) (hb 12) (hb 13)
  have h14 := byteOf_le16 (b 14) (b 15) (hb 14) (hb 15)
  split_ifs with c1 c2 c3 c4 c5 c6
  · exact getD_map_range 8 b p c1
  · have : p = 8 ∨ p = 9 := by omega
    rcases this with e | e <;> subst e
    · exact h8.1
    · exact h8.2
  · have : p = 10 ∨ p = 11 := by omega
    rcases this with e | e <;> subst e
    · exact h10.1
    · exact h10.2
  · have : p = 12 ∨ p = 13 := by omega
    rcases this with e | e <;> subst e
    · exact h12.1
    · exact h12.2
  · have : p = 14 ∨ p = 15 := by omega
    rcases this with e | e <;> subst e
    · exact h14.1
    · exact h14.2
  · have : p = 16 := by omega
    subst this; rfl
  · rw [getD_map_range 4079 (fun k => b (17 + k)) (p - 17) (by omega)]
    congr 1
    omega

theorem encode_decode_root (b : Block) (hb : ∀ p, b p < 256) (p : Nat) :
    encodeRoot (decodeFileInfo b) p = b p := by
  unfold encodeRoot decodeFileInfo
  dsimp only
  have hk : p % 32 < 32 := Nat.mod_lt _ (by decide)
  have hp : 32 * (p / 32) + p % 32 = p := Nat.div_add_mod p 32
  have h32 := byteOf_le32 (b (32 * (p / 32) + 16)) (b (32 * (p / 32) + 16 + 1))
    (b (32 * (p / 32) + 16 + 2)) (b (32 * (p / 32) + 16 + 3)) (hb _) (hb _) (hb _) (hb _)
  have h16 := byteOf_le16 (b (32 * (p / 32) + 20)) (b (32 * (p / 32) + 20 + 1)) (hb _) (hb _)
  split_ifs with c1 c2 c3
  · rw [getD_map_range 16 (fun k => b (32 * (p / 32) + k)) (p % 32) c1, hp]
  · have : p % 32 = 16 ∨ p % 32 = 17 ∨ p % 32 = 18 ∨ p % 32 = 19 := by omega
    unfold le32
    rcases this with e | e | e | e <;> rw [e] at hp ⊢
    · rw [show 16 - 16 = 0 from rfl, h32.1, hp]
    · rw [show 17 - 16 = 1 from rfl, h32.2.1]; congr 1
    · rw [show 18 - 16 = 2 from rfl, h32.2.2.1]; congr 1
    · rw [show 19 - 16 = 3 from rfl, h32.2.2.2]; congr 1
  · have : p % 32 = 20 ∨ p % 32 = 21 := by omega
    unfold le16
    rcases this with e | e <;> rw [e] at hp ⊢
    · rw [show 20 - 20 = 0 from rfl, h16.1, hp]
    · rw [show 21 - 20 = 1 from rfl, h16.2]; congr 1
  · rw [getD_map_range 10 (fun k => b (32 * (p / 32) + 22 + k)) (p % 32 - 22) (by omega)]
    congr 1
    omega


theorem block_write_same (d : Disk) (i : Nat) (buf : Block) (hi : i < d.count)
    (h : ∀ p, p < BLOCK_BYTES → buf p = d.blocks i p) : block_write d i buf = some d := by
  unfold block_write
  rw [if_pos hi]
  congr 1
  cases d with
  | mk count blocks =>
    congr 1
    funext b
    by_cases hb : b = i
    · subst hb
      rw [if_pos rfl]
      funext p
      by_cases hp : p < BLOCK_BYTES
      · rw [if_pos hp]; exact h p hp
      · rw [if_neg hp]
    · rw [if_neg hb]

theorem readFatLoop_spec (d : Disk) :
    ∀ (k i : Nat) (fat0 fat : Nat → Nat), readFatLoop d k i fat0 = some fat →
      (∀ m, i ≤ m → m < i + k → 1 + m < d.count) ∧
      ∀ j, fat j = if 2048 * i ≤ j ∧ j < 2048 * (i + k)
        then le16 (d.blocks (1 + j / 2048)) (2 * (j % 2048)) else fat0 j := by
  intro k
  induction k with
  | zero =>
    intro i fat0 fat h
    simp only [readFatLoop, Option.some.injEq] at h
    subst h
    refine ⟨fun m h1 h2 => by omega, fun j => ?_⟩
    rw [if_neg (by omega)]
  | succ k ih =>
    intro i fat0 fat h
    unfold readFatLoop block_read at h
    by_cases hc : 1 + i < d.count
    · rw [if_pos hc] at h
      obtain ⟨hr, hf⟩ := ih (i + 1) _ fat h
      refine ⟨fun m h1 h2 => ?_, fun j => ?_⟩
      · by_cases hm : m = i
        · subst hm; exact hc
        · exact hr m (by omega) (by omega)
      · rw [hf j]
        by_cases h1 : 2048 * (i + 1) ≤ j ∧ j < 2048 * (i + 1 + k)
        · rw [if_pos h1, if_pos (by omega)]
        · rw [if_neg h1]
          by_cases h2 : 2048 * i ≤ j ∧ j < 2048 * (i + 1)
          · have hb : BLOCK_BYTES / 2 * i ≤ j ∧ j < BLOCK_BYTES / 2 * (i + 1) := by
              simp only [BLOCK_BYTES]; omega
            rw [if_pos hb, if_pos (by omega)]
            have hdiv : j / 2048 = i := by omega
            have hmod : j - BLOCK_BYTES / 2 * i = j % 2048 := by
              simp only [BLOCK_BYTES]; omega
            rw [hdiv, hmod]
            unfold le16
            have hlt : 2 * (j % 2048) + 1 < BLOCK_BYTES := by
              simp only [BLOCK_BYTES]; omega
            have hlt0 : 2 * (j % 2048) < BLOCK_BYTES := by omega
            simp only [hlt0, hlt, if_true]
          · have hb : ¬ (BLOCK_BYTES / 2 * i ≤ j ∧ j < BLOCK_BYTES / 2 * (i + 1)) := by
              simp only [BLOCK_BYTES]; omega
            rw [if_neg hb, if_neg (by omega)]
    · rw [if_neg hc] at h
      exact absurd h (by simp)

theorem encode_fat_block (d : Disk) (fat : Nat → Nat) (i : Nat)
    (hb : ∀ b p, d.blocks b p < 256)
    (hfat : ∀ j, 2048 * i ≤ j → j < 2048 * (i + 1) →
      fat j = le16 (d.blocks (1 + j / 2048)) (2 * (j % 2048)))
    (p : Nat) (hp : p < BLOCK_BYTES) : encodeFatBlock fat i p = d.blocks (1 + i) p := by
  unfold BLOCK_BYTES at hp
  unfold encodeFatBlock
  have hj := hfat (BLOCK_BYTES / 2 * i + p / 2) (by simp only [BLOCK_BYTES]; omega)
    (by simp only [BLOCK_BYTES]; omega)
  have hdiv : (BLOCK_BYTES / 2 * i + p / 2) / 2048 = i := by
    simp only [BLOCK_BYTES]; omega
  have hmod : (BLOCK_BYTES / 2 * i + p / 2) % 2048 = p / 2 := by
    simp only [BLOCK_BYTES]; omega
  rw [hj, hdiv, hmod]
  unfold le16
  have hbyte := byteOf_le16 (d.blocks (1 + i) (2 * (p / 2))) (d.blocks (1 + i) (2 * (p / 2) + 1))
    (hb _ _) (hb _ _)
  have : p % 2 = 0 ∨ p % 2 = 1 := by omega
  rcases this with e | e
  · rw [e, hbyte.1]; congr 1; omega
  · rw [e, hbyte.2]; congr 1; omega

theorem writeFatLoop_same (d : Disk) (fat : Nat → Nat) :
    ∀ (k i : Nat),
      (∀ m, i ≤ m → m < i + k →
        1 + m < d.count ∧ ∀ p, p < BLOCK_BYTES → encodeFatBlock fat m p = d.blocks (1 + m) p) →
      writeFatLoop fat k i d = some d := by
  intro k
  induction k with
  | zero => intro i _; rfl
  | succ k ih =>
    intro i h
    have hi := h i (Nat.le_refl _) (by omega)
    unfold writeFatLoop
    rw [block_write_same d (1 + i) _ hi.1 hi.2]
    exact ih (i + 1) (fun m h1 h2 => h m (by omega) (by omega))


theorem mount_success_inv (openedFiles : Nat → fileDescriptor) (d : Disk) (st : FS)
    (hm : fs_mount openedFiles (some d) = (0, some st)) :
    0 < d.count ∧
    st.sb = decodeSuperBlock (d.blocks 0) ∧
    readFatLoop d st.sb.numFBlocks 0 (fun _ => 0) = some st.fat ∧
    st.sb.rootIndex < d.count ∧
    st.sb.rootIndex = 1 + st.sb.numFBlocks ∧
    st.root = decodeFileInfo
      (fun p => if p < BLOCK_BYTES then d.blocks st.sb.rootIndex p else 0) ∧
    st.openedFiles = openedFiles ∧
    st.disk = d := by
  have hbad : ((-1 : Int), (none : Option FS)) ≠ (0, some st) := by
    intro h
    have := congrArg Prod.fst h
    simp at this
  by_cases h0 : 0 < d.count
  swap
  · simp only [fs_mount, block_read, h0, if_false] at hm
    exact absurd hm hbad
  simp only [fs_mount, block_read, h0, if_true, decodeSuperBlock_trunc] at hm
  generalize decodeSuperBlock (d.blocks 0) = sb at hm
  split_ifs at hm
  all_goals first
    | exact absurd hm hbad
    | skip
  all_goals
    cases hfat : readFatLoop d sb.numFBlocks 0 (fun _ => 0) with
    | none => rw [hfat] at hm; exact absurd hm hbad
    | some fat =>
      rw [hfat] at hm
      first
        | exact absurd hm hbad
        | (simp only [Prod.mk.injEq, Option.some.injEq, true_and] at hm
           subst hm
           refine ⟨h0, rfl, hfat, ?_, ?_, rfl, rfl, rfl⟩
           · show sb.rootIndex < d.count
             assumption
           · show sb.rootIndex = 1 + sb.numFBlocks
             omega)


theorem formattedDisk_bytes (b p : Nat) : formattedDisk.blocks b p < 256 := by
  unfold formattedDisk
  by_cases hb : b = 0
  · simp only [hb, if_true]
    unfold encodeSuperBlock byteOf
    split_ifs with c1
    · have : p < 8 := c1
      interval_cases p <;> decide
    all_goals first
      | exact Nat.mod_lt _ (by decide)
      | decide
      | simp [smallSuperBlock]
  · simp only [hb, if_false, zeros]
    decide

theorem inUse_twoBlockVolume (i : Nat) : InUse twoBlockVolume i ↔ i = 0 := by
  constructor
  · rintro ⟨_, h⟩
    by_contra h0
    simp [twoBlockVolume, h0, freeEntry, isEmptyName] at h
  · rintro h
    subst h
    exact ⟨by decide, by decide⟩

theorem chain_twoBlockVolume (c : List Nat)
    (h : IsChain twoBlockVolume.fat (twoBlockVolume.root 0).firstIndex c) : c = [0, 1] :=
  IsChain_unique twoBlockVolume.fat c [0, 1] _ h (by simp [IsChain, twoBlockVolume])

theorem twoBlockVolume_wellFormed : WellFormed twoBlockVolume where
  fat_fits := by decide
  blocks_u16 := by decide
  chains := by
    intro i hi
    have h := (inUse_twoBlockVolume i).1 hi
    subst h
    refine ⟨[0, 1], by simp [IsChain, twoBlockVolume], by simp, ?_⟩
    intro b hb
    simp only [List.mem_cons, List.mem_singleton, List.not_mem_nil, or_false] at hb
    rcases hb with e | e <;> subst e <;> exact ⟨by decide, by decide⟩
  disjoint := by
    intro i i' c c' hi hi' hne
    exact absurd (((inUse_twoBlockVolume i).1 hi).trans ((inUse_twoBlockVolume i').1 hi').symm) hne
  no_leak := by
    intro j hj hne
    have hj3 : j < 3 := hj
    refine ⟨0, [0, 1], (inUse_twoBlockVolume 0).2 rfl, by simp [IsChain, twoBlockVolume], ?_⟩
    interval_cases j
    · simp
    · simp
    · exact absurd (by simp [twoBlockVolume]) hne
  names_terminated := by
    intro i _
    by_cases h0 : i = 0
    · subst h0; exact ⟨by decide, by decide⟩
    simp [twoBlockVolume, h0, freeEntry, FILENAME_MAX_SIZE]
  names_unique := by
    intro i i' hi hi' _
    exact ((inUse_twoBlockVolume i).1 hi).trans ((inUse_twoBlockVolume i').1 hi').symm

theorem deassignLoop_never_ok (fatLen : Nat) (fat : Nat → Nat) (blocksNeeded : Int)
    (h : blocksNeeded ≠ 0) :
    ∀ (fuel currentIndex : Nat),
      deassignLoop fatLen fat blocksNeeded fuel currentIndex ≠ .ok () := by
  intro fuel
  induction fuel with
  | zero =>
    intro cur
    simp [deassignLoop, h]
  | succ fuel ih =>
    intro cur
    unfold deassignLoop
    rw [if_pos h]
    split_ifs
    · exact ih _
    · simp

/-! ## C11: fs_delete of a name that is not in the directory -/

/-- C11 (evaluation at a failing input): on `allOpenVolume` the empty name
matches no entry in use and all 32 descriptors are open, yet `fs_delete("")`
returns 0 and sets FAT entry 0, the block of file "a", from `0xFFFF` to 0: the
lookup matches the free root entry 1, no open descriptor holds the empty name,
and the chain at the stale `firstIndex` of that entry is released. -/
theorem delete_empty_name_frees_chain :
    (List.range NUM_ROOTDIR_ENTRIES).all
      (fun i => isEmptyName (allOpenVolume.root i).filename ||
        !sameName [] (allOpenVolume.root i).filename) = true ∧
    (List.range MAX_OPEN_FILE_DESCRIPTORS).all
      (fun i => !isEmptyName (allOpenVolume.openedFiles i).filename) = true ∧
    allOpenVolume.fat 0 = 0xFFFF ∧
    (fs_delete allOpenVolume []).val?.map (fun r => (r.2, r.1.fat 0)) = some (0, 0) := by
  decide

/-! ## C12: names that fs_create rejects -/

/-- C12 (evaluation at a failing input): on the empty volume `fs_create` of a
name of 16 characters returns 0, stores the 16 characters in root entry 0
(leaving no terminator in the field) and takes FAT entry 0: the check of line
204 rejects only names longer than 16.  The empty name is rejected. -/
theorem create_accepts_sixteen_characters :
    strlen name16 = 16 ∧
    isEmptyName (emptyVolume.root 0).filename = true ∧
    emptyVolume.fat 0 = 0 ∧
    (fs_create emptyVolume name16).2 = 0 ∧
    ((fs_create emptyVolume name16).1.root 0).filename = name16 ∧
    (fs_create emptyVolume name16).1.fat 0 = 0xFFFF ∧
    (fs_create emptyVolume []).2 = -1 := by
  decide

/-! ## C13: fs_create when no data block is free -/

/-- C13 (evaluation at a failing input): on `fullVolume` no FAT entry is 0 and
root entry 1 is free; `fs_create("b")` returns -1 but leaves root entry 1
holding the name "b": the name is stored (line 234) before the FAT is searched. -/
theorem create_without_block_keeps_name :
    freeFat fullVolume = 0 ∧
    isEmptyName (fullVolume.root 1).filename = true ∧
    (fs_create fullVolume [98]).2 = -1 ∧
    cstr ((fs_create fullVolume [98]).1.root 1).filename = [98] ∧
    isEmptyName ((fs_create fullVolume [98]).1.root 1).filename = false := by
  decide

/-! ## C14: effect of a successful fs_create -/

theorem fs_create_spec (st : FS) (filename : List Nat) (e f : Nat)
    (hne : cstr filename ≠ []) (hlen : strlen filename < FILENAME_MAX_SIZE)
    (hnew : ∀ i, InUse st i → cstr (st.root i).filename ≠ cstr filename)
    (he : e < NUM_ROOTDIR_ENTRIES) (hefree : isEmptyName (st.root e).filename = true)
    (heleast : ∀ j, j < e → isEmptyName (st.root j).filename = false)
    (hf : f < st.sb.numDBlocks) (hffree : st.fat f = 0)
    (hfleast : ∀ j, j < f → st.fat j ≠ 0) :
    ∃ st', fs_create st filename = (st', 0) ∧
      cstr (st'.root e).filename = cstr filename ∧
      (st'.root e).size = 0 ∧
      (st'.root e).firstIndex = f ∧
      st'.fat f = 0xFFFF ∧
      (∀ i, i ≠ e → st'.root i = st.root i) ∧
      (∀ j, j ≠ f → st'.fat j = st.fat j) ∧
      st'.sb = st.sb ∧ st'.openedFiles = st.openedFiles ∧ st'.disk = st.disk := by
  have h1 : ¬ strlen filename > FILENAME_MAX_SIZE := by omega
  have h2 : findFileArg st.root filename = .ok none := by
    rw [findFileArg_eq st.root filename (by unfold FILENAME_MAX_SIZE at hlen; omega),
      no_duplicate_of_new st filename hne hnew]
  have h3 := findFreeEntry_eq_some st.root e he hefree heleast
  have h4 : (List.range st.sb.numDBlocks).find? (fun i => st.fat i == 0) = some f := by
    rw [List.find?_range_eq_some]
    refine ⟨by simp [hffree], List.mem_range.2 hf, ?_⟩
    intro j hj
    simp [hfleast j hj]
  have hres : fs_create st filename =
      ({ st with
          fat := Function.update st.fat f 0xFFFF
          root := Function.update
            (Function.update st.root e
              { st.root e with filename := strcpy (st.root e).filename filename, size := 0 })
            e
            { filename := strcpy (st.root e).filename filename, size := 0, firstIndex := f,
              padding := (st.root e).padding } }, 0) := by
    simp only [fs_create, h1, h2, h3, h4, if_false, Bool.false_eq_true, Function.update_same]
  refine ⟨_, hres, ?_, ?_, ?_, ?_, ?_, ?_, rfl, rfl, rfl⟩
  · simp only [Function.update_same]
    exact cstr_strcpy _ _ (Nat.le_of_lt hlen)
  · simp only [Function.update_same]
  · simp only [Function.update_same]
  · simp only [Function.update_same]
  · intro i hi
    simp only [Function.update_noteq hi]
  · intro j hj
    simp only [Function.update_noteq hj]

/-- C14: for every non-empty name of at most 15 characters that no entry in use
holds, when some root entry is free and some FAT entry below `numDBlocks` is 0,
`fs_create` returns 0; with `e` the lowest free root entry and `f` the lowest
index below `numDBlocks` whose FAT entry is 0, entry `e` then holds the name
with size 0 and `firstIndex = f`, FAT entry `f` is `0xFFFF`, and every other
root entry, every other FAT entry, the superblock, the descriptor table and the
device are unchanged. -/
theorem create_claims_entry_and_block (st : FS) (filename : List Nat)
    (hne : cstr filename ≠ []) (hlen : strlen filename < FILENAME_MAX_SIZE)
    (hnew : ∀ i, InUse st i → cstr (st.root i).filename ≠ cstr filename)
    (hentry : ∃ i, i < NUM_ROOTDIR_ENTRIES ∧ isEmptyName (st.root i).filename = true)
    (hblock : ∃ j, j < st.sb.numDBlocks ∧ (st.fat j == 0) = true) :
    ∃ e f st',
      (e < NUM_ROOTDIR_ENTRIES ∧ isEmptyName (st.root e).filename = true ∧
        ∀ j, j < e → isEmptyName (st.root j).filename = false) ∧
      (f < st.sb.numDBlocks ∧ st.fat f = 0 ∧ ∀ j, j < f → st.fat j ≠ 0) ∧
      fs_create st filename = (st', 0) ∧
      cstr (st'.root e).filename = cstr filename ∧
      (st'.root e).size = 0 ∧
      (st'.root e).firstIndex = f ∧
      st'.fat f = 0xFFFF ∧
      (∀ i, i ≠ e → st'.root i = st.root i) ∧
      (∀ j, j ≠ f → st'.fat j = st.fat j) ∧
      st'.sb = st.sb ∧ st'.openedFiles = st.openedFiles ∧ st'.disk = st.disk := by
  obtain ⟨e, he, hefree, heleast⟩ := exists_least_index _ _ hentry
  obtain ⟨f, hf, hffree, hfleast⟩ := exists_least_index _ _ hblock
  have hffree' : st.fat f = 0 := by simpa using hffree
  have hfleast' : ∀ j, j < f → st.fat j ≠ 0 := fun j hj => by simpa using hfleast j hj
  obtain ⟨st', h⟩ := fs_create_spec st filename e f hne hlen hnew he hefree heleast hf
    hffree' hfleast'
  exact ⟨e, f, st', ⟨he, hefree, heleast⟩, ⟨hf, hffree', hfleast'⟩, h⟩

/-- Witness for C14: creating "a" on the empty volume takes root entry 0 and
data block 0. -/
theorem create_claims_entry_and_block_witness :
    ∃ st', fs_create emptyVolume [97] = (st', 0) ∧
      cstr (st'.root 0).filename = [97] ∧ (st'.root 0).size = 0 ∧
      (st'.root 0).firstIndex = 0 ∧ st'.fat 0 = 0xFFFF := by
  obtain ⟨e, f, st', ⟨_, _, he⟩, ⟨_, _, hf⟩, h1, h2, h3, h4, h5, _⟩ :=
    create_claims_entry_and_block emptyVolume [97] (by decide) (by decide)
      (fun i hi => absurd hi.2 (by simp [emptyVolume, freeEntry, isEmptyName]))
      ⟨0, by decide, by decide⟩ ⟨0, by decide, by decide⟩
  have he0 : e = 0 := by
    by_contra hne
    have := he 0 (Nat.pos_of_ne_zero hne)
    exact absurd this (by decide)
  have hf0 : f = 0 := by
    by_contra hne
    exact hf 0 (Nat.pos_of_ne_zero hne) (by decide)
  subst he0
  subst hf0
  exact ⟨st', h1, h2, h3, h4, h5⟩

/-! ## C15: full root directory -/

/-- C15: when all 128 root directory entries are in use, `fs_create` returns -1
for every name and leaves the whole state (root directory and FAT included)
unchanged. -/
theorem create_full_directory (st : FS) (filename : List Nat)
    (hfull : ∀ i, i < NUM_ROOTDIR_ENTRIES → isEmptyName (st.root i).filename = false) :
    fs_create st filename = (st, -1) := by
  have h3 : findFreeEntry st.root = none := by
    unfold findFreeEntry
    rw [List.find?_range_eq_none]
    intro i hi
    simp [hfull i hi]
  by_cases h1 : strlen filename > FILENAME_MAX_SIZE
  · simp only [fs_create, h1, if_true]
  cases hf : findFileArg st.root filename with
  | ok found =>
    cases found with
    | none => simp only [fs_create, h1, hf, h3, if_false]
    | some i => simp only [fs_create, h1, hf, if_false]
  | hang => simp only [fs_create, h1, hf, if_false]
  | fault => simp only [fs_create, h1, hf, if_false]

/-- Witness for C15 on a volume whose 128 root entries are all in use. -/
theorem create_full_directory_witness :
    fs_create fullDirectory [97] = (fullDirectory, -1) ∧
    fs_create fullDirectory [200, 201] = (fullDirectory, -1) :=
  ⟨create_full_directory fullDirectory [97]
      (fun i _ => by simp [fullDirectory, isEmptyName]),
   create_full_directory fullDirectory [200, 201]
      (fun i _ => by simp [fullDirectory, isEmptyName])⟩

/-! ## C16: names that fs_open rejects -/

/-- C16 (evaluation at a failing input): on the empty volume no root entry is
in use, yet `fs_open("")` returns the handle 0 instead of -1: the lookup of
lines 382-388 matches the free root entry 0, whose name is empty. -/
theorem open_empty_name_returns_handle :
    (List.range NUM_ROOTDIR_ENTRIES).all
      (fun i => isEmptyName (emptyVolume.root i).filename) = true ∧
    (fs_open emptyVolume []).val?.map (fun r => r.2) = some 0 := by
  decide

/-! ## C17: effect of a successful fs_open -/

theorem fs_open_twice_spec (st : FS) (filename : List Nat) (fileIndex h : Nat)
    (hfind : findName st.root filename = some fileIndex) (huse : InUse st fileIndex)
    (hlen : strlen filename < FILENAME_MAX_SIZE)
    (hh : h < MAX_OPEN_FILE_DESCRIPTORS)
    (hclosed : isEmptyName (st.openedFiles h).filename = true)
    (hleast : ∀ j, j < h → isEmptyName (st.openedFiles j).filename = false) :
    ∃ st1, fs_open st filename = .ok (st1, (h : Int)) ∧
      cstr (st1.openedFiles h).filename = cstr filename ∧
      (st1.openedFiles h).offset = 0 ∧
      (∀ j, j ≠ h → st1.openedFiles j = st.openedFiles j) ∧
      st1.root = st.root ∧ st1.fat = st.fat ∧ st1.sb = st.sb ∧ st1.disk = st.disk ∧
      ∀ h', h' < MAX_OPEN_FILE_DESCRIPTORS →
        isEmptyName (st1.openedFiles h').filename = true →
        (∀ j, j < h' → isEmptyName (st1.openedFiles j).filename = false) →
        ∃ st2, fs_open st1 filename = .ok (st2, (h' : Int)) ∧ h' ≠ h ∧
          st2.openedFiles h = st1.openedFiles h ∧
          cstr (st2.openedFiles h').filename = cstr filename ∧
          (st2.openedFiles h').offset = 0 := by
  have hne := cstr_ne_nil_of_found st filename fileIndex hfind huse
  have hlen15 : strlen filename ≤ 15 := by
    unfold FILENAME_MAX_SIZE at hlen
    omega
  refine ⟨_, fs_open_spec st filename fileIndex h hlen15 hfind hh hclosed hleast, ?_, ?_, ?_,
    rfl, rfl, rfl, rfl, ?_⟩
  · simp only [Function.update_same]
    exact cstr_strcpy _ _ (Nat.le_of_lt hlen)
  · simp only [Function.update_same]
  · intro j hj
    simp only [Function.update_noteq hj]
  · intro h' hh' hclosed' hleast'
    have hdiff : h' ≠ h := by
      intro e
      subst e
      simp only [Function.update_same] at hclosed'
      rw [isEmptyName_strcpy _ _ hne] at hclosed'
      exact absurd hclosed' (by decide)
    refine ⟨_, fs_open_spec _ filename fileIndex h' hlen15 hfind hh' hclosed' hleast', hdiff,
      ?_, ?_, ?_⟩
    · simp only [Function.update_noteq (Ne.symm hdiff)]
    · simp only [Function.update_same]
      exact cstr_strcpy _ _ (Nat.le_of_lt hlen)
    · simp only [Function.update_same]

/-- C17: for the name (at most 15 characters) of an existing file, when some
descriptor slot is closed, `fs_open` returns the lowest closed slot `h`; slot
`h` then holds the name with cursor 0, every other slot is unchanged, and so
are the root directory, FAT, superblock and device.  When a slot is still
closed after that, a second `fs_open` of the name returns a handle `h'` that
differs from `h`, gives it cursor 0, and leaves slot `h` (name and cursor) as
it was. -/
theorem open_returns_lowest_closed (st : FS) (filename : List Nat) (fileIndex : Nat)
    (hfind : findFileArg st.root filename = .ok (some fileIndex)) (huse : InUse st fileIndex)
    (hlen : strlen filename < FILENAME_MAX_SIZE)
    (hfew : ∃ i, i < MAX_OPEN_FILE_DESCRIPTORS ∧
      isEmptyName (st.openedFiles i).filename = true) :
    ∃ (h : Nat) (st1 : FS),
      (h < MAX_OPEN_FILE_DESCRIPTORS ∧ isEmptyName (st.openedFiles h).filename = true ∧
        ∀ j, j < h → isEmptyName (st.openedFiles j).filename = false) ∧
      fs_open st filename = .ok (st1, (h : Int)) ∧
      cstr (st1.openedFiles h).filename = cstr filename ∧
      (st1.openedFiles h).offset = 0 ∧
      (∀ j, j ≠ h → st1.openedFiles j = st.openedFiles j) ∧
      st1.root = st.root ∧ st1.fat = st.fat ∧ st1.sb = st.sb ∧ st1.disk = st.disk ∧
      ((∃ i, i < MAX_OPEN_FILE_DESCRIPTORS ∧
          isEmptyName (st1.openedFiles i).filename = true) →
        ∃ (h' : Nat) (st2 : FS), fs_open st1 filename = .ok (st2, (h' : Int)) ∧
          h' < MAX_OPEN_FILE_DESCRIPTORS ∧ h' ≠ h ∧
          st2.openedFiles h = st1.openedFiles h ∧
          cstr (st2.openedFiles h').filename = cstr filename ∧
          (st2.openedFiles h').offset = 0) := by
  obtain ⟨h, hh, hclosed, hleast⟩ := exists_least_index _ _ hfew
  have hname : findName st.root filename = some fileIndex := by
    rw [findFileArg_eq st.root filename (by unfold FILENAME_MAX_SIZE at hlen; omega)] at hfind
    exact Option.some.inj (congrArg Res.val? hfind) ▸ rfl
  obtain ⟨st1, h1, h2, h3, h4, h5, h6, h7, h8, h9⟩ :=
    fs_open_twice_spec st filename fileIndex h hname huse hlen hh hclosed hleast
  refine ⟨h, st1, ⟨hh, hclosed, hleast⟩, h1, h2, h3, h4, h5, h6, h7, h8, ?_⟩
  intro hfew'
  obtain ⟨h', hh', hclosed', hleast'⟩ := exists_least_index _ _ hfew'
  obtain ⟨st2, g1, g2, g3, g4, g5⟩ := h9 h' hh' hclosed' hleast'
  exact ⟨h', st2, g1, hh', g2, g3, g4, g5⟩

/-- Witness for C17: on `twoFileVolume` slot 0 is open, so opening "b" returns
slot 1. -/
theorem open_returns_lowest_closed_witness :
    ∃ st1, fs_open twoFileVolume [98] = .ok (st1, 1) ∧
      cstr (st1.openedFiles 1).filename = [98] ∧ (st1.openedFiles 1).offset = 0 ∧
      st1.root = twoFileVolume.root ∧ st1.fat = twoFileVolume.fat := by
  obtain ⟨h, st1, ⟨hh, hclosed, hleast⟩, h1, h2, h3, _, h5, h6, _⟩ :=
    open_returns_lowest_closed twoFileVolume [98] 1 (by decide) ⟨by decide, by decide⟩
      (by decide) ⟨1, by decide, by decide⟩
  have hh1 : h = 1 := by
    have h0 : h ≠ 0 := by
      intro e
      subst e
      exact absurd hclosed (by decide)
    by_contra hne
    have := hleast 1 (by omega)
    exact absurd this (by decide)
  subst hh1
  exact ⟨st1, h1, h2, h3, h5, h6⟩

/-! ## C18: unique file names -/

theorem inUse_longNameVolume (i : Nat) : InUse longNameVolume i ↔ i = 0 := by
  constructor
  · rintro ⟨_, h⟩
    by_contra h0
    simp [longNameVolume, h0, freeEntry, isEmptyName] at h
  · rintro h
    subst h
    exact ⟨by decide, by decide⟩

/-- C18 (evaluation at a failing input): on `longNameVolume` one file is in
use, so no two entries in use hold the same name; its name is 16 characters "a"
and its size is 5.  The field has no terminator: the `strcmp` of line 211 reads
on into the size field and compares 17 characters with the 16 of the argument,
so the duplicate check passes; `fs_create` of the same 16 characters returns 0
and stores them in root entry 1.  After this one call two entries in use hold
the same name. -/
theorem create_duplicates_long_name :
    UniqueNames longNameVolume ∧
    runDirOps longNameVolume [.create name16] = .ok (fs_create longNameVolume name16).1 ∧
    (fs_create longNameVolume name16).2 = 0 ∧
    ((fs_create longNameVolume name16).1.root 0).filename = name16 ∧
    ((fs_create longNameVolume name16).1.root 1).filename = name16 ∧
    ¬ UniqueNames (fs_create longNameVolume name16).1 := by
  refine ⟨?_, rfl, by decide, by decide, by decide, ?_⟩
  · intro i i' hi hi' _
    exact ((inUse_longNameVolume i).1 hi).trans ((inUse_longNameVolume i').1 hi').symm
  · intro hu
    have h01 : (0 : Nat) = 1 :=
      hu 0 1 ⟨by decide, by decide⟩ ⟨by decide, by decide⟩ (by decide)
    exact absurd h01 (by decide)

/-- The volume `longNameVolume` is what four calls make of the empty volume:
create and open the name of 16 characters, write 5 bytes, close. -/
theorem longNameVolume_reached :
    ((fs_open (fs_create emptyVolume name16).1 name16).bind fun r =>
      (fs_write r.1 zeros r.2 sevens 5).bind fun w =>
        .ok (fs_close w.1 r.2).1).val?.map
      (fun st => ((st.root 0).filename, (st.root 0).size, (st.root 0).firstIndex,
        isEmptyName (st.root 1).filename))
      = some (name16, 5, 0, true) ∧
    ((fs_open (fs_create emptyVolume name16).1 name16).bind fun r =>
      (fs_write r.1 zeros r.2 sevens 5).bind fun w =>
        .ok (fs_close w.1 r.2).1).val?.map
      (fun st => (isEmptyName (st.openedFiles 0).filename, st.fat 0, st.fat 1, st.fat 2))
      = some (true, 65535, 0, 0) := by
  decide

/-- With names of at most 15 characters the names stay unique: if no two root
entries in use hold the same name, then after every finite sequence of
`fs_create` and `fs_delete` calls whose created names have at most 15
characters, whatever each call returns, no two root entries in use hold the
same name. -/
theorem short_names_stay_unique (st : FS) (ops : List DirOp) (st' : FS)
    (hu : UniqueNames st)
    (hshort : ∀ filename, DirOp.create filename ∈ ops → strlen filename ≤ 15)
    (hrun : runDirOps st ops = .ok st') : UniqueNames st' := by
  induction ops generalizing st with
  | nil =>
    simp only [runDirOps] at hrun
    have := Res.ok.inj hrun
    subst this
    exact hu
  | cons op ops ih =>
    simp only [runDirOps] at hrun
    obtain ⟨st1, h1, h2⟩ := Res.bind_eq_ok _ _ _ hrun
    exact ih st1
      (dirStep_unique st st1 op hu
        (fun filename e => hshort filename (e ▸ List.mem_cons_self _ _)) h1)
      (fun filename hm => hshort filename (List.mem_cons_of_mem _ hm)) h2

/-! ## C19: mount, unmount, mount -/

/-- C19: for every disk image of bytes on which `fs_mount` succeeds,
`fs_umount` right after it returns 0 (every write succeeds) and leaves the
device equal to the image, block for block, and a second `fs_mount` returns 0
with the same in-memory state (superblock, FAT, root directory) as the first. -/
theorem mount_umount_round_trip (openedFiles : Nat → fileDescriptor) (d : Disk) (st : FS)
    (hbytes : ∀ b p, d.blocks b p < 256)
    (hm : fs_mount openedFiles (some d) = (0, some st)) :
    fs_umount st = (0, d) ∧
    fs_mount openedFiles (some (fs_umount st).2) = (0, some st) := by
  obtain ⟨h0, hsb, hfat, hroot_lt, _, hroot, _, hdisk⟩ :=
    mount_success_inv openedFiles d st hm
  have hum : fs_umount st = (0, d) := by
    have h1 : block_write d 0 (encodeSuperBlock st.sb) = some d := by
      apply block_write_same d 0 _ h0
      intro p hp
      rw [hsb]
      exact encode_decode_superBlock (d.blocks 0) (hbytes 0) p hp
    obtain ⟨hr, hf⟩ := readFatLoop_spec d st.sb.numFBlocks 0 (fun _ => 0) st.fat hfat
    have h2 : writeFatLoop st.fat st.sb.numFBlocks 0 d = some d := by
      apply writeFatLoop_same
      intro m hm1 hm2
      refine ⟨hr m hm1 hm2, ?_⟩
      intro p hp
      apply encode_fat_block d st.fat m hbytes _ p hp
      intro j hj1 hj2
      rw [hf j, if_pos (by omega)]
    have h3 : block_write d st.sb.rootIndex (encodeRoot st.root) = some d := by
      apply block_write_same d _ _ hroot_lt
      intro p hp
      rw [hroot, encode_decode_root _ _ p, if_pos hp]
      intro q
      by_cases hq : q < BLOCK_BYTES
      · rw [if_pos hq]; exact hbytes _ _
      · rw [if_neg hq]; decide
    unfold fs_umount
    rw [hdisk, h1]
    simp only [h2, h3]
  refine ⟨hum, ?_⟩
  rw [hum]
  exact hm

/-- Witness for C19 on the formatted device of 6 blocks. -/
theorem mount_umount_round_trip_witness :
    ∃ st, fs_mount (fun _ => closedFd) (some formattedDisk) = (0, some st) ∧
      fs_umount st = (0, formattedDisk) ∧
      fs_mount (fun _ => closedFd) (some (fs_umount st).2) = (0, some st) := by
  have hret : (fs_mount (fun _ => closedFd) (some formattedDisk)).1 = 0 := by decide
  have hsome : (fs_mount (fun _ => closedFd) (some formattedDisk)).2.isSome = true := by
    decide
  obtain ⟨st, hst⟩ := Option.isSome_iff_exists.1 hsome
  have hm : fs_mount (fun _ => closedFd) (some formattedDisk) = (0, some st) :=
    Prod.ext hret hst
  exact ⟨st, hm,
    mount_umount_round_trip (fun _ => closedFd) formattedDisk st formattedDisk_bytes hm⟩

/-! ## C20: termination of fs_write -/

/-- C20 (evaluation at a failing input): `twoBlockVolume` is well-formed and its
file "a" has a chain of two blocks.  A write of 10 bytes at cursor 0 needs one
block, so `blocksNeeded` is -1 and the loop of lines 579-586 is entered; its
body never changes `blocksNeeded`, so the loop returns for no amount of fuel,
and the call does not return: on this volume it follows the FAT links to
`0xFFFF` and reads `fat[0xFFFF]` outside the array. -/
theorem write_with_fewer_blocks_never_returns (bounce buf : Block) :
    WellFormed twoBlockVolume ∧
    IsChain twoBlockVolume.fat (twoBlockVolume.root 0).firstIndex [0, 1] ∧
    (∀ fuel currentIndex,
      deassignLoop twoBlockVolume.fatLen twoBlockVolume.fat (-1) fuel currentIndex ≠ .ok ()) ∧
    fs_write twoBlockVolume bounce 0 buf 10 = .fault :=
  ⟨twoBlockVolume_wellFormed, by simp [IsChain, twoBlockVolume],
   deassignLoop_never_ok _ _ (-1) (by decide), rfl⟩

/-! ## Auxiliary lemmas: descriptor lookups and chain growth -/

theorem isEmptyName_eq_false_of_cstr (f : List Nat) (h : cstr f ≠ []) :
    isEmptyName f = false := by
  cases he : isEmptyName f
  · rfl
  · exact absurd (cstr_of_isEmptyName f he) h

theorem findName_mem (root : Nat → fileInfo) (filename : List Nat) (fileIndex : Nat)
    (h : findName root filename = some fileIndex) :
    fileIndex < NUM_ROOTDIR_ENTRIES ∧ cstr filename = cstr (root fileIndex).filename := by
  unfold findName at h
  have h1 := (List.find?_range_eq_some.1 h)
  exact ⟨List.mem_range.1 h1.2.1, (sameName_eq_true_iff _ _).1 h1.1⟩

theorem findName_of_match (root : Nat → fileInfo) (filename : List Nat) (j : Nat)
    (hj : j < NUM_ROOTDIR_ENTRIES) (hm : cstr (root j).filename = cstr filename) :
    ∃ fileIndex, findName root filename = some fileIndex := by
  cases h : findName root filename with
  | some fi => exact ⟨fi, rfl⟩
  | none =>
    unfold findName at h
    have := List.find?_range_eq_none.1 h j hj
    rw [(sameName_eq_true_iff _ _).2 hm.symm] at this
    exact absurd this (by decide)

theorem assignBlocks_zero (fatLen : Nat) (k i : Nat) (fat : Nat → Nat) (last : Nat) :
    assignBlocks fatLen k i fat last 0 = .ok fat := by
  cases k <;> simp [assignBlocks]

theorem assignBlocks_spec (fatLen N : Nat) (hN : N ≤ 0xFFFF) (hfit : N ≤ fatLen) :
    ∀ (k i : Nat) (fat : Nat → Nat) (last n : Nat),
      i + k = N → 0 < n → last < fatLen →
      (fat last = 0 → last < i) →
      (∀ j, i ≤ j → fat j = 0 → 0 < j) →
      n ≤ ((List.range' i k).filter (fun j => fat j == 0)).length →
      ∃ fat', assignBlocks fatLen k i fat last (n : Int) = .ok fat' ∧
        IsChain fat' (fat' last) (((List.range' i k).filter (fun j => fat j == 0)).take n) ∧
        (∀ j, j ≠ last → j ∉ ((List.range' i k).filter (fun j => fat j == 0)).take n →
          fat' j = fat j) := by
  intro k
  induction k with
  | zero =>
    intro i fat last n _ hn _ _ _ hlen
    simp at hlen
    omega
  | succ k ih =>
    intro i fat last n hik hn hlast hlz hpos hlen
    have hnpos : (n : Int) > 0 := by omega
    rw [List.range'_succ] at hlen ⊢
    unfold assignBlocks
    rw [if_pos hnpos]
    by_cases hfree : fat i = 0
    · rw [if_pos hfree]
      have hfilter : (i :: List.range' (i + 1) k).filter (fun j => fat j == 0)
          = i :: (List.range' (i + 1) k).filter (fun j => fat j == 0) :=
        List.filter_cons_of_pos (by simp [hfree])
      rw [hfilter] at hlen ⊢
      have hli : last ≠ i := by
        intro e
        rw [e] at hlz
        exact absurd (hlz hfree) (Nat.lt_irrefl _)
      have hipos : 0 < i := hpos i (Nat.le_refl _) hfree
      have hi16 : i ≠ 0xFFFF := by omega
      obtain ⟨m, rfl⟩ : ∃ m, n = m + 1 := ⟨n - 1, by omega⟩
      rw [List.take_succ_cons, if_pos hlast]
      have hsub : ((m + 1 : Nat) : Int) - 1 = (m : Int) := by push_cast; omega
      rw [hsub]
      by_cases hm : m = 0
      · subst hm
        simp only [Nat.cast_zero, if_true, List.take_zero, assignBlocks_zero]
        refine ⟨_, rfl, ?_, ?_⟩
        · refine ⟨?_, ?_, ?_⟩
          · rw [Function.update_same]; exact hi16
          · rw [Function.update_same]
          · show Function.update (Function.update fat i 0xFFFF) last i
              (Function.update (Function.update fat i 0xFFFF) last i last) = 0xFFFF
            rw [Function.update_same, Function.update_noteq (Ne.symm hli),
              Function.update_same]
        · intro j hj1 hj2
          have hji : j ≠ i := by simpa using hj2
          rw [Function.update_noteq hj1, Function.update_noteq hji]
      · have hmz : ¬ ((m : Int) = 0) := by omega
        rw [if_neg hmz]
        have hcongr : (List.range' (i + 1) k).filter
              (fun j => Function.update fat last i j == 0)
            = (List.range' (i + 1) k).filter (fun j => fat j == 0) := by
          apply List.filter_congr
          intro x hx
          have hx1 := (List.mem_range'_1.1 hx).1
          by_cases hxl : x = last
          · subst hxl
            rw [Function.update_same]
            have h1 : x ≠ 0 ∨ True := Or.inr trivial
            have hf : fat x ≠ 0 := fun h0 => by
              have := hlz h0
              omega
            have hi0 : i ≠ 0 := by omega
            simp [hf, hi0]
          · rw [Function.update_noteq hxl]
        obtain ⟨fat', hres, hchain, hframe⟩ :=
          ih (i + 1) (Function.update fat last i) i m (by omega) (by omega) (by omega)
            (fun _ => Nat.lt_succ_self i) (fun j hj _ => by omega)
            (by rw [hcongr]; simpa using hlen)
        rw [hcongr] at hchain hframe
        refine ⟨fat', hres, ?_, ?_⟩
        · have hnot : last ∉ List.take m
              ((List.range' (i + 1) k).filter (fun j => fat j == 0)) := by
            intro hmem
            have h1 := List.mem_filter.1 (List.mem_of_mem_take hmem)
            have h2 := (List.mem_range'_1.1 h1.1).1
            have h3 : fat last = 0 := by simpa using h1.2
            have := hlz h3
            omega
          have hfl : fat' last = i := by
            rw [hframe last hli hnot, Function.update_same]
          refine ⟨?_, ?_, ?_⟩
          · rw [hfl]; exact hi16
          · exact hfl.symm
          · rw [hfl]; exact hchain
        · intro j hj1 hj2
          have hji : j ≠ i := fun e => hj2 (by rw [e]; exact List.mem_cons_self _ _)
          have hjt : j ∉ List.take m
              ((List.range' (i + 1) k).filter (fun j => fat j == 0)) :=
            fun h => hj2 (List.mem_cons_of_mem _ h)
          rw [hframe j hji hjt, Function.update_noteq hj1]
    · rw [if_neg hfree]
      have hfilter : (i :: List.range' (i + 1) k).filter (fun j => fat j == 0)
          = (List.range' (i + 1) k).filter (fun j => fat j == 0) :=
        List.filter_cons_of_neg (by simp [hfree])
      rw [hfilter] at hlen ⊢
      exact ih (i + 1) fat last n (by omega) hn hlast
        (fun h => Nat.lt_succ_of_lt (hlz h)) (fun j hj h => hpos j (by omega) h) hlen

theorem countBlocks_spec (fatLen : Nat) (fat : Nat → Nat) :
    ∀ (ch : List Nat) (fuel cur last0 : Nat) (b0 : Int),
      IsChain fat cur ch → (∀ b ∈ ch, b < fatLen) → ch.length ≤ fuel →
      countBlocks fatLen fat fuel cur last0 b0
        = .ok (ch.getLastD last0, b0 + (ch.length : Int)) := by
  intro ch
  induction ch with
  | nil =>
    intro fuel cur last0 b0 h _ _
    have hc : cur = 0xFFFF := h
    cases fuel <;> simp [countBlocks, hc]
  | cons b bs ih =>
    intro fuel cur last0 b0 h hlt hlen
    obtain ⟨hc, hb, hrest⟩ := h
    subst hb
    cases fuel with
    | zero => simp at hlen
    | succ fuel =>
      have hbl : b < fatLen := hlt b (List.mem_cons_self _ _)
      unfold countBlocks
      rw [if_neg hc, if_pos hbl,
        ih fuel (fat b) b (b0 + 1) hrest (fun x hx => hlt x (List.mem_cons_of_mem _ hx))
          (by simpa using hlen)]
      have e : b0 + 1 + (bs.length : Int) = b0 + ((b :: bs).length : Int) := by
        rw [List.length_cons]; push_cast; omega
      rw [e, List.getLastD_cons]

theorem getLastD_mem (l : List Nat) (d : Nat) (h : l ≠ []) : l.getLastD d ∈ l := by
  induction l generalizing d with
  | nil => exact absurd rfl h
  | cons b bs ih =>
    rw [List.getLastD_cons]
    exact List.getLastD_mem_cons bs b

theorem IsChain_last (fat : Nat → Nat) :
    ∀ (l : List Nat) (cur d : Nat), l ≠ [] → IsChain fat cur l →
      fat (l.getLastD d) = 0xFFFF := by
  intro l
  induction l with
  | nil => intro cur d h _; exact absurd rfl h
  | cons b bs ih =>
    intro cur d _ h
    obtain ⟨_, hb, hrest⟩ := h
    subst hb
    rw [List.getLastD_cons]
    cases bs with
    | nil => exact hrest
    | cons c cs => exact ih (fat b) b (by simp) hrest

theorem IsChain_append (fat fat' : Nat → Nat) (added : List Nat) :
    ∀ (ch : List Nat) (cur d : Nat), ch ≠ [] → ch.Nodup → IsChain fat cur ch →
      (∀ b ∈ ch, b ≠ ch.getLastD d → fat' b = fat b) →
      IsChain fat' (fat' (ch.getLastD d)) added →
      IsChain fat' cur (ch ++ added) := by
  intro ch
  induction ch with
  | nil => intro cur d h; exact absurd rfl h
  | cons b bs ih =>
    intro cur d _ hnd h hsame hadd
    obtain ⟨hc, hb, hrest⟩ := h
    subst hb
    have hl : (b :: bs).getLastD d = bs.getLastD b := List.getLastD_cons _ _ _
    rw [hl] at hsame hadd
    cases bs with
    | nil => exact ⟨hc, rfl, hadd⟩
    | cons c cs =>
      have hmem : (c :: cs).getLastD b ∈ c :: cs := getLastD_mem _ _ (by simp)
      have hne : b ≠ (c :: cs).getLastD b := by
        intro e
        rw [← e] at hmem
        exact (List.nodup_cons.1 hnd).1 hmem
      refine ⟨hc, rfl, ?_⟩
      rw [hsame b (List.mem_cons_self _ _) hne]
      have hl2 : (c :: cs).getLastD b = (c :: cs).getLastD c := by
        rw [List.getLastD_cons, List.getLastD_cons]
      apply ih (fat b) c (by simp) (List.nodup_cons.1 hnd).2 hrest
      · intro x hx hxne
        rw [← hl2] at hxne
        exact hsame x (List.mem_cons_of_mem _ hx) hxne
      · rw [← hl2]; exact hadd

theorem IsChain_entries_ne_zero (fat : Nat → Nat) :
    ∀ (l : List Nat) (cur : Nat), IsChain fat cur l → (∀ b ∈ l, b ≠ 0) →
      ∀ b ∈ l, fat b ≠ 0 := by
  intro l
  induction l with
  | nil => intro _ _ _ b hb; simp at hb
  | cons a as ih =>
    intro cur h hnz b hb
    obtain ⟨_, ha, hrest⟩ := h
    subst ha
    rcases List.mem_cons.1 hb with e | hmem
    · subst e
      cases as with
      | nil =>
        have e1 : fat b = 0xFFFF := hrest
        rw [e1]; decide
      | cons c cs =>
        have e1 : c = fat b := hrest.2.1
        rw [← e1]
        exact hnz c (List.mem_cons_of_mem _ (List.mem_cons_self _ _))
    · exact ih (fat a) hrest (fun x hx => hnz x (List.mem_cons_of_mem _ hx)) b hmem

theorem writeLoop_ok (fatLen : Nat) (fat : Nat → Nat) (dataIndex : Nat) (buf : Block) :
    ∀ (k : Nat) (l : List Nat) (i : Nat) (disk : Disk) (bounce : Block) (cur : Nat)
      (realCount : Int),
      IsChain fat cur l → k ≤ l.length → (∀ b ∈ l, b < fatLen) →
      (0 < k → 4096 * ((k : Int) - 1) ≤ realCount) →
      ∃ disk', writeLoop fatLen fat dataIndex buf k i disk bounce cur realCount 0
        = .ok disk' := by
  intro k
  induction k with
  | zero => intro l i disk bounce cur realCount _ _ _ _; exact ⟨disk, rfl⟩
  | succ k ih =>
    intro l i disk bounce cur realCount h hlen hlt hreal
    cases l with
    | nil => simp at hlen
    | cons b bs =>
      obtain ⟨_, hb, hrest⟩ := h
      subst hb
      have hbl : b < fatLen := hlt b (List.mem_cons_self _ _)
      have hr0 : 4096 * (((k + 1 : Nat) : Int) - 1) ≤ realCount := hreal (Nat.succ_pos k)
      have hr1 : (0 : Int) ≤ realCount := by push_cast at hr0; omega
      unfold writeLoop
      simp only [ite_self]
      have h1 : ¬ ((if realCount > 4096 then (4096 : Int) else realCount) < 0) := by
        split_ifs <;> omega
      have h2 : ¬ ((if realCount > 4096 then (4096 : Int) else realCount) > 0 ∧
          ((0 : Int) < 0 ∨ 0 + (if realCount > 4096 then (4096 : Int) else realCount) > 4096)) := by
        split_ifs <;> omega
      rw [if_neg h1, if_neg h2, if_pos hbl]
      exact ih bs (i + 1) _ _ (fat b) (realCount - 4096) hrest (by simpa using hlen)
        (fun x hx => hlt x (List.mem_cons_of_mem _ hx))
        (fun hk => by push_cast at hr0; omega)

theorem totalBlocks_eq (t : Nat) :
    (if Int.tmod (t : Int) 4096 > 0 then Int.tdiv (t : Int) 4096 + 1
      else Int.tdiv (t : Int) 4096) = (((t + 4095) / 4096 : Nat) : Int) := by
  have h1 : Int.tmod (t : Int) 4096 = ((t % 4096 : Nat) : Int) := by
    rw [Int.tmod_eq_emod (by omega) (by omega)]; rfl
  have h2 : Int.tdiv (t : Int) 4096 = ((t / 4096 : Nat) : Int) := by
    rw [Int.tdiv_eq_ediv (by omega) (by omega)]; rfl
  rw [h1, h2]
  split_ifs <;> omega

theorem need_bound (count need : Nat) (h : need = (count + 4095) / 4096) :
    4096 * ((need : Int) - 1) ≤ (count : Int) := by
  omega

theorem freeBlocks_length (st : FS) : (freeBlocks st).length = freeFat st := by
  unfold freeBlocks freeFat
  rw [List.countP_eq_length_filter]

theorem freeBlocks_take (st : FS) (n : Nat) (hn : n ≤ freeFat st) :
    ((freeBlocks st).take n).length = n ∧ ((freeBlocks st).take n).Nodup ∧
      ∀ b ∈ (freeBlocks st).take n, b < st.sb.numDBlocks ∧ st.fat b = 0 := by
  refine ⟨?_, ?_, ?_⟩
  · rw [List.length_take, freeBlocks_length]
    exact Nat.min_eq_left hn
  · exact ((List.nodup_range _).sublist (List.filter_sublist _)).sublist (List.take_sublist _ _)
  · intro b hb
    have h1 := List.mem_filter.1 (List.mem_of_mem_take hb)
    exact ⟨List.mem_range.1 h1.1, by simpa using h1.2⟩

theorem inUse_blockZeroFreeVolume (i : Nat) : InUse blockZeroFreeVolume i ↔ i = 0 := by
  constructor
  · rintro ⟨_, h⟩
    by_contra h0
    simp [blockZeroFreeVolume, h0, freeEntry, isEmptyName] at h
  · rintro h
    subst h
    exact ⟨by decide, by decide⟩

theorem chain_blockZeroFreeVolume (c : List Nat)
    (h : IsChain blockZeroFreeVolume.fat (blockZeroFreeVolume.root 0).firstIndex c) : c = [1] :=
  IsChain_unique blockZeroFreeVolume.fat c [1] _ h (by simp [IsChain, blockZeroFreeVolume])

theorem blockZeroFreeVolume_wellFormed : WellFormed blockZeroFreeVolume where
  fat_fits := by decide
  blocks_u16 := by decide
  chains := by
    intro i hi
    have h := (inUse_blockZeroFreeVolume i).1 hi
    subst h
    refine ⟨[1], by simp [IsChain, blockZeroFreeVolume], by simp, ?_⟩
    intro b hb
    simp only [List.mem_singleton] at hb
    subst hb
    exact ⟨by decide, by decide⟩
  disjoint := by
    intro i i' c c' hi hi' hne
    exact absurd (((inUse_blockZeroFreeVolume i).1 hi).trans
      ((inUse_blockZeroFreeVolume i').1 hi').symm) hne
  no_leak := by
    intro j hj hne
    have hj3 : j < 3 := hj
    refine ⟨0, [1], (inUse_blockZeroFreeVolume 0).2 rfl,
      by simp [IsChain, blockZeroFreeVolume], ?_⟩
    interval_cases j
    · exact absurd (by simp [blockZeroFreeVolume]) hne
    · simp
    · exact absurd (by simp [blockZeroFreeVolume]) hne
  names_terminated := by
    intro i _
    by_cases h0 : i = 0
    · subst h0; exact ⟨by decide, by decide⟩
    simp [blockZeroFreeVolume, h0, freeEntry, FILENAME_MAX_SIZE]
  names_unique := by
    intro i i' hi hi' _
    exact ((inUse_blockZeroFreeVolume i).1 hi).trans ((inUse_blockZeroFreeVolume i').1 hi').symm

/-! ## C21: growth of a chain in fs_write -/

/-- C21 (evaluation at a failing input): `blockZeroFreeVolume` is well formed;
descriptor 0 is open with cursor 0 on the file "a", whose chain is the one
block 1, and two FAT entries are free.  A write of 8192 bytes needs 2 blocks,
one more than the chain has.  `fs_write` returns 8192 and links data block 0
behind block 1: entry 0 becomes `0xFFFF`, and line 566 stores the link value 0
in entry 1, the entry of a block in use, which `fs_info` and `fs_create` read
as free.  Two entries are 0 after the call as before it: the count of free
entries has not dropped by one.  The next `fs_create` takes block 1: files "a"
and "b" then both start at block 1, whose entry is `0xFFFF`. -/
theorem write_links_block_zero :
    WellFormed blockZeroFreeVolume ∧
    IsChain blockZeroFreeVolume.fat (blockZeroFreeVolume.root 0).firstIndex [1] ∧
    (blockZeroFreeVolume.openedFiles 0).offset = 0 ∧
    freeFat blockZeroFreeVolume = 2 ∧
    (fs_write blockZeroFreeVolume zeros 0 sevens 8192).val?.map
      (fun r => (r.2, freeFat r.1, r.1.fat 0, r.1.fat 1, r.1.fat 2))
      = some (8192, 2, 65535, 0, 0) ∧
    (fs_write blockZeroFreeVolume zeros 0 sevens 8192).val?.map
      (fun r => ((fs_create r.1 [98]).2, ((fs_create r.1 [98]).1.root 0).firstIndex,
        ((fs_create r.1 [98]).1.root 1).firstIndex, (fs_create r.1 [98]).1.fat 1))
      = some (0, 1, 1, 65535) :=
  ⟨blockZeroFreeVolume_wellFormed, by simp [IsChain, blockZeroFreeVolume], rfl, by decide,
    by decide, by decide⟩

/-- Chain growth when data block 0 is in use.  On a well-formed volume whose
FAT entry 0 is not 0, take
an open handle with cursor `c` on a file whose chain `ch` has fewer than
`need = ceil((c + count) / 4096)` blocks, with `count > 0`, `c + count < 2^31`
and at least `need - h` free FAT entries.  The walk of lines 543-547 ends on
the last block of `ch` with `h` counted, and the allocation loop of lines
555-573 ends with a FAT `fat1` in which: the chain of the file is `ch` followed
by the `need - h` lowest-indexed free entries in ascending order, it has `need`
blocks and its last entry is `0xFFFF`; `need - h` fewer entries are 0; and the
chain of every other file is what it was.  At cursor 0 `fs_write` returns
`count`, with `fat1` as the FAT and the names and first blocks of the root
directory untouched. -/
theorem write_grows_chain (st : FS) (bounce buf : Block) (fd : Int) (count c need : Nat)
    (fileIndex : Nat) (ch : List Nat)
    (hwf : WellFormed st)
    (hzero : st.fat 0 ≠ 0)
    (hfd : ¬ (fd < 0 ∨ 31 < fd ∨ isEmptyName (st.openedFiles fd.toNat).filename = true))
    (hfind : findFileFd st.root st.openedFiles fd.toNat = .ok (some fileIndex))
    (hcur : (st.openedFiles fd.toNat).offset = (c : Int))
    (hch : IsChain st.fat (st.root fileIndex).firstIndex ch)
    (hcount : 0 < count)
    (hint : c + count < 2147483648)
    (hn : need = (c + count + 4095) / 4096)
    (hneed : ch.length < need)
    (hfree : need - ch.length ≤ freeFat st) :
    ∃ (fat1 : Nat → Nat) (added : List Nat),
      added = (freeBlocks st).take (need - ch.length) ∧
      countBlocks st.fatLen st.fat WALK_FUEL (st.root fileIndex).firstIndex
          (st.root fileIndex).firstIndex 0
        = .ok (ch.getLastD (st.root fileIndex).firstIndex, (ch.length : Int)) ∧
      assignBlocks st.fatLen st.sb.numDBlocks 0 st.fat
          (ch.getLastD (st.root fileIndex).firstIndex)
          ((need : Int) - (ch.length : Int)) = .ok fat1 ∧
      IsChain fat1 (st.root fileIndex).firstIndex (ch ++ added) ∧
      (ch ++ added).length = need ∧
      fat1 ((ch ++ added).getLastD 0) = 0xFFFF ∧
      (List.range st.sb.numDBlocks).countP (fun i => fat1 i == 0) + (need - ch.length)
        = freeFat st ∧
      (∀ i c', InUse st i → i ≠ fileIndex → IsChain st.fat (st.root i).firstIndex c' →
        IsChain fat1 (st.root i).firstIndex c') ∧
      (c = 0 → ∃ r, fs_write st bounce fd buf count = .ok r ∧ r.2 = (count : Int) ∧
        r.1.fat = fat1 ∧ r.1.sb = st.sb ∧
        ∀ i, (r.1.root i).filename = (st.root i).filename ∧
          (r.1.root i).firstIndex = (st.root i).firstIndex) := by
  have hN := hwf.blocks_u16
  have hfit := hwf.fat_fits
  have hb := badFd_eq_false st fd hfd
  have hopen : isEmptyName (st.openedFiles fd.toNat).filename = false := by
    cases h : isEmptyName (st.openedFiles fd.toNat).filename with
    | false => rfl
    | true => exact absurd (Or.inr (Or.inr h)) hfd
  have hin : InUse st fileIndex := inUse_of_findFileFd st _ _ hopen hfind
  obtain ⟨ch0, hch0, hne0, hmem0⟩ := hwf.chains fileIndex hin
  have hceq := IsChain_unique st.fat ch0 ch _ hch0 hch
  subst hceq
  have hnd : ch0.Nodup := IsChain_nodup _ _ _ hch
  have hlen : ch0.length ≤ WALK_FUEL :=
    le_trans (nodup_length_le ch0 _ hnd (fun b hb => (hmem0 b hb).1))
      (by unfold WALK_FUEL; omega)
  have hlastmem : ch0.getLastD (st.root fileIndex).firstIndex ∈ ch0 :=
    getLastD_mem ch0 _ hne0
  have hcb := countBlocks_spec st.fatLen st.fat ch0 WALK_FUEL (st.root fileIndex).firstIndex
    (st.root fileIndex).firstIndex 0 hch
    (fun b hb => lt_of_lt_of_le (hmem0 b hb).1 hfit) hlen
  rw [zero_add] at hcb
  have hfl : (List.range' 0 st.sb.numDBlocks).filter (fun j => st.fat j == 0)
      = freeBlocks st := by
    unfold freeBlocks
    rw [List.range_eq_range']
  obtain ⟨haddlen, haddnd, haddmem⟩ := freeBlocks_take st (need - ch0.length) hfree
  obtain ⟨fat1, hassign, hchain1, hframe⟩ :=
    assignBlocks_spec st.fatLen st.sb.numDBlocks hN hfit st.sb.numDBlocks 0 st.fat
      (ch0.getLastD (st.root fileIndex).firstIndex) (need - ch0.length) (by omega) (by omega)
      (lt_of_lt_of_le (hmem0 _ hlastmem).1 hfit)
      (fun h => absurd h (hmem0 _ hlastmem).2)
      (fun j _ h => Nat.pos_of_ne_zero (fun e => hzero (e ▸ h)))
      (by rw [hfl, freeBlocks_length]; exact hfree)
  rw [hfl] at hchain1 hframe
  have hcast : ((need - ch0.length : Nat) : Int) = (need : Int) - (ch0.length : Int) := by
    omega
  rw [hcast] at hassign
  have haddnz : ∀ b ∈ (freeBlocks st).take (need - ch0.length), b ≠ 0 := by
    intro b hb e
    exact hzero (e ▸ (haddmem b hb).2)
  have hfull : IsChain fat1 (st.root fileIndex).firstIndex
      (ch0 ++ (freeBlocks st).take (need - ch0.length)) := by
    apply IsChain_append st.fat fat1 _ ch0 _ (st.root fileIndex).firstIndex hne0 hnd hch
    · intro b hb hbne
      exact hframe b hbne (fun hmem => (hmem0 b hb).2 (haddmem b hmem).2)
    · exact hchain1
  have hfulllen : (ch0 ++ (freeBlocks st).take (need - ch0.length)).length = need := by
    rw [List.length_append, haddlen]
    omega
  have hfat1nz : ∀ b ∈ (freeBlocks st).take (need - ch0.length), fat1 b ≠ 0 :=
    IsChain_entries_ne_zero fat1 _ _ hchain1 haddnz
  have hlastnz : fat1 (ch0.getLastD (st.root fileIndex).firstIndex) ≠ 0 := by
    cases hadd : (freeBlocks st).take (need - ch0.length) with
    | nil =>
      rw [hadd] at haddlen
      simp at haddlen
      omega
    | cons a as =>
      rw [hadd] at hchain1
      have e : a = fat1 (ch0.getLastD (st.root fileIndex).firstIndex) := hchain1.2.1
      rw [← e]
      exact haddnz a (by rw [hadd]; exact List.mem_cons_self _ _)
  refine ⟨fat1, (freeBlocks st).take (need - ch0.length), rfl, ?_, ?_, hfull, hfulllen,
    ?_, ?_, ?_, ?_⟩
  · exact hcb
  · exact hassign
  · exact IsChain_last fat1 _ _ 0 (List.append_ne_nil_of_left_ne_nil hne0 _) hfull
  · have hcp := countP_free_chain fat1 st.sb.numDBlocks _ haddnd
      (fun b hb => ⟨(haddmem b hb).1, hfat1nz b hb⟩)
    have hcongr : (List.range st.sb.numDBlocks).countP
          (fun i => (if i ∈ (freeBlocks st).take (need - ch0.length) then 0 else fat1 i) == 0)
        = (List.range st.sb.numDBlocks).countP (fun i => st.fat i == 0) := by
      apply List.countP_congr
      intro i _
      by_cases hi : i ∈ (freeBlocks st).take (need - ch0.length)
      · simp [hi, (haddmem i hi).2]
      · by_cases hil : i = ch0.getLastD (st.root fileIndex).firstIndex
        · have h1 := (hmem0 _ hlastmem).2
          rw [if_neg hi, hil]
          simp only [beq_iff_eq]
          exact ⟨fun h => absurd h hlastnz, fun h => absurd h h1⟩
        · simp [hi, hframe i hil hi]
    rw [hcongr, haddlen] at hcp
    unfold freeFat
    omega
  · intro i c' hi hne hc'
    obtain ⟨c0, hc0, _, hmemc⟩ := hwf.chains i hi
    have hceq := IsChain_unique st.fat c0 c' _ hc0 hc'
    subst hceq
    apply IsChain_congr st.fat fat1 c0 _ _ hc'
    intro b hb
    apply hframe b
    · intro e
      exact hwf.disjoint i fileIndex c0 ch0 hi hin hne hc' hch b hb (e ▸ hlastmem)
    · intro hmem
      exact (hmemc b hb).2 (haddmem b hmem).2
  · intro hc0
    subst hc0
    have hcur0 : (st.openedFiles fd.toNat).offset = 0 := by simpa using hcur
    have hne : count ≠ 0 := Nat.pos_iff_ne_zero.1 hcount
    have hti : toInt32 (count : Int) = (count : Int) :=
      toInt32_of_lt (Int.ofNat_nonneg count) (by omega)
    have htb : toInt32 (0 + toInt32 (count : Int)) = ((count : Nat) : Int) := by
      rw [hti, zero_add, hti]
    have htc : toInt32 ((count : Int) - 0) = (count : Int) := by
      rw [sub_zero, hti]
    have hneed2 : need = (count + 4095) / 4096 := by rw [hn, zero_add]
    have hpos : (need : Int) - (ch0.length : Int) > 0 := by omega
    obtain ⟨disk1, hwl⟩ := writeLoop_ok st.fatLen fat1 st.sb.dataIndex buf need
      (ch0 ++ (freeBlocks st).take (need - ch0.length)) 0 st.disk bounce
      (st.root fileIndex).firstIndex (count : Int) hfull (le_of_eq hfulllen.symm)
      (by
        intro b hb
        rcases List.mem_append.1 hb with h | h
        · exact lt_of_lt_of_le (hmem0 b h).1 hfit
        · exact lt_of_lt_of_le (haddmem b h).1 hfit)
      (fun _ => need_bound count need hneed2)
    have hres : ∃ r, fs_write st bounce fd buf count = .ok r ∧ r.2 = (count : Int) ∧
        r.1.fat = fat1 ∧ r.1.sb = st.sb := by
      simp only [fs_write, hb, hne, hfind, Res.bind, if_false, Bool.false_eq_true]
      rw [hcur0, htb, htc, totalBlocks_eq, ← hneed2, hcb]
      simp only [Res.bind]
      rw [if_pos hpos, hassign]
      simp only [Res.bind, Int.toNat_ofNat]
      rw [hwl]
      exact ⟨_, rfl, rfl, rfl, rfl⟩
    obtain ⟨r, hret, h2, h3, h4⟩ := hres
    exact ⟨r, hret, h2, h3, h4, fun i => fs_write_root st bounce buf fd count r hret i⟩

theorem write_grows_chain_witness :
    WellFormed twoFileVolume ∧ twoFileVolume.fat 0 ≠ 0 ∧
    ∃ (fat1 : Nat → Nat) (added : List Nat),
      added = (freeBlocks twoFileVolume).take (2 - [0].length) ∧
      countBlocks twoFileVolume.fatLen twoFileVolume.fat WALK_FUEL
          (twoFileVolume.root 0).firstIndex (twoFileVolume.root 0).firstIndex 0
        = .ok ([0].getLastD (twoFileVolume.root 0).firstIndex, (([0] : List Nat).length : Int)) ∧
      assignBlocks twoFileVolume.fatLen twoFileVolume.sb.numDBlocks 0 twoFileVolume.fat
          ([0].getLastD (twoFileVolume.root 0).firstIndex)
          (((2 : Nat) : Int) - (([0] : List Nat).length : Int)) = .ok fat1 ∧
      IsChain fat1 (twoFileVolume.root 0).firstIndex ([0] ++ added) ∧
      ([0] ++ added).length = 2 ∧
      fat1 (([0] ++ added).getLastD 0) = 0xFFFF ∧
      (List.range twoFileVolume.sb.numDBlocks).countP (fun i => fat1 i == 0)
          + (2 - ([0] : List Nat).length)
        = freeFat twoFileVolume ∧
      (∀ i c', InUse twoFileVolume i → i ≠ 0 →
        IsChain twoFileVolume.fat (twoFileVolume.root i).firstIndex c' →
        IsChain fat1 (twoFileVolume.root i).firstIndex c') ∧
      ((0 : Nat) = 0 → ∃ r, fs_write twoFileVolume zeros 0 sevens 8192 = .ok r ∧
        r.2 = ((8192 : Nat) : Int) ∧
        r.1.fat = fat1 ∧ r.1.sb = twoFileVolume.sb ∧
        ∀ i, (r.1.root i).filename = (twoFileVolume.root i).filename ∧
          (r.1.root i).firstIndex = (twoFileVolume.root i).firstIndex) :=
  ⟨twoFileVolume_wellFormed, by decide,
    write_grows_chain twoFileVolume zeros sevens 0 8192 0 2 0 [0] twoFileVolume_wellFormed
      (by decide) (by decide) (by decide) rfl (by simp [IsChain, twoFileVolume]) (by decide)
      (by decide) (by decide) (by decide) (by decide)⟩

/-! ## C22: open descriptor slots resolve in the root directory -/

theorem handles_frame (st st' : FS) (hr : HandlesResolve st)
    (hofs : st'.openedFiles = st.openedFiles)
    (hroot : ∀ fd j, fd < MAX_OPEN_FILE_DESCRIPTORS →
      isEmptyName (st.openedFiles fd).filename = false → InUse st j →
      cstr (st.root j).filename = cstr (st.openedFiles fd).filename →
      (st'.root j).filename = (st.root j).filename) :
    HandlesResolve st' := by
  intro fd hfd hopen
  rw [hofs] at hopen ⊢
  obtain ⟨hl, j, hj, hm⟩ := hr fd hfd hopen
  have e := hroot fd j hfd hopen hj hm
  exact ⟨hl, j, ⟨hj.1, by rw [e]; exact hj.2⟩, by rw [e]; exact hm⟩

theorem create_handles (st : FS) (filename : List Nat) (hr : HandlesResolve st) :
    HandlesResolve (fs_create st filename).1 := by
  by_cases h1 : strlen filename > FILENAME_MAX_SIZE
  · simp only [fs_create, h1, if_true]; exact hr
  cases hf : findFileArg st.root filename with
  | hang => simp only [fs_create, h1, hf, if_false]; exact hr
  | fault => simp only [fs_create, h1, hf, if_false]; exact hr
  | ok found =>
    cases found with
    | some i => simp only [fs_create, h1, hf, if_false]; exact hr
    | none =>
      cases h3 : findFreeEntry st.root with
      | none => simp only [fs_create, h1, hf, h3, if_false]; exact hr
      | some e =>
        have hfree : isEmptyName (st.root e).filename = true := by
          unfold findFreeEntry at h3
          exact (List.find?_range_eq_some.1 h3).1
        have hne : ∀ j, InUse st j → j ≠ e := by
          intro j hj he
          subst he
          have hj2 := hj.2
          rw [hfree] at hj2
          exact absurd hj2 (by decide)
        cases h4 : (List.range st.sb.numDBlocks).find? (fun i => st.fat i == 0) with
        | none =>
          simp only [fs_create, h1, hf, h3, h4, if_false]
          refine handles_frame st _ hr ?_ ?_
          · rfl
          intro fd j _ _ hj _
          simp only [Function.update_noteq (hne j hj)]
        | some f =>
          simp only [fs_create, h1, hf, h3, h4, if_false]
          refine handles_frame st _ hr ?_ ?_
          · rfl
          intro fd j _ _ hj _
          simp only [Function.update_noteq (hne j hj)]

theorem delete_handles (st : FS) (filename : List Nat) (r : FS × Int) (hr : HandlesResolve st)
    (hlen : strlen filename ≤ 15) (hret : fs_delete st filename = .ok r) :
    HandlesResolve r.1 := by
  unfold fs_delete at hret
  rw [findFileArg_eq st.root filename hlen, findOpen_eq st.openedFiles filename hlen] at hret
  simp only [Res.bind] at hret
  cases hfind : findName st.root filename with
  | none =>
    rw [hfind] at hret
    cases hret; exact hr
  | some fileIndex =>
    rw [hfind] at hret
    simp only at hret
    cases hany : (List.range MAX_OPEN_FILE_DESCRIPTORS).find?
        (fun i => sameName filename (st.openedFiles i).filename) with
    | some i =>
      rw [hany] at hret
      cases hret; exact hr
    | none =>
      rw [hany] at hret
      simp only at hret
      obtain ⟨fat1, _, h1⟩ := Res.bind_eq_ok _ _ _ hret
      have h2 := Res.ok.inj h1
      subst h2
      refine handles_frame st _ hr ?_ ?_
      · rfl
      intro fd j hfd _ _ hm
      have hne : j ≠ fileIndex := by
        intro e
        subst e
        have hcmp := (findName_mem st.root filename j hfind).2
        have hno := List.find?_eq_none.1 hany fd (List.mem_range.2 hfd)
        exact hno ((sameName_eq_true_iff _ _).2 (hcmp.trans hm))
      simp only [Function.update_noteq hne]

theorem open_handles (st : FS) (filename : List Nat) (r : FS × Int) (hr : HandlesResolve st)
    (hlen : strlen filename ≤ 15) (hret : fs_open st filename = .ok r) :
    HandlesResolve r.1 := by
  unfold fs_open at hret
  rw [findFileArg_eq st.root filename hlen] at hret
  have hfit : ¬ (strlen filename + 1 > 20) := by omega
  simp only [Res.bind, hfit, if_false] at hret
  split_ifs at hret with hnum
  · cases hret; exact hr
  cases hfind : findName st.root filename with
  | none =>
    rw [hfind] at hret
    cases hret; exact hr
  | some fileIndex =>
    rw [hfind] at hret
    cases hfd : findFreeFd st.openedFiles with
    | none => rw [hfd] at hret; cases hret
    | some h =>
      rw [hfd] at hret
      have h2 := Res.ok.inj hret
      subst h2
      intro fd hlt hopen
      by_cases e : fd = h
      · subst e
        simp only [Function.update_same] at hopen ⊢
        have hc : cstr (strcpy (st.openedFiles fd).filename filename) = cstr filename :=
          cstr_strcpy _ _ (by unfold FILENAME_MAX_SIZE; omega)
        obtain ⟨hfi, hm⟩ := findName_mem st.root filename fileIndex hfind
        have hnn : cstr (st.root fileIndex).filename ≠ [] := by
          rw [← hm, ← hc]
          exact cstr_ne_nil_of_not_isEmptyName _ hopen
        refine ⟨?_, fileIndex, ⟨hfi, isEmptyName_eq_false_of_cstr _ hnn⟩, by rw [hc, hm]⟩
        unfold strlen at hlen ⊢
        rw [hc]
        exact hlen
      · simp only [Function.update_noteq e] at hopen ⊢
        exact hr fd hlt hopen

theorem close_handles (st : FS) (fd : Int) (hr : HandlesResolve st) :
    HandlesResolve (fs_close st fd).1 := by
  unfold fs_close
  split_ifs
  · exact hr
  · intro i hlt hopen
    by_cases e : i = fd.toNat
    · subst e
      simp only [Function.update_same, isEmptyName_clearName] at hopen
      exact absurd hopen (by decide)
    · simp only [Function.update_noteq e] at hopen ⊢
      exact hr i hlt hopen

theorem lseek_handles (st : FS) (fd : Int) (offset : Nat) (r : FS × Int)
    (hr : HandlesResolve st) (hret : fs_lseek st fd offset = .ok r) :
    HandlesResolve r.1 := by
  unfold fs_lseek at hret
  split_ifs at hret
  · cases hret; exact hr
  obtain ⟨found, _, hret1⟩ := Res.bind_eq_ok _ _ _ hret
  cases found with
  | none => cases hret1
  | some fileIndex =>
    simp only at hret1
    split_ifs at hret1
    · cases hret1; exact hr
    · have h2 := Res.ok.inj hret1
      subst h2
      intro i hlt hopen
      by_cases e : i = fd.toNat
      · subst e
        simp only [Function.update_same] at hopen ⊢
        exact hr _ hlt hopen
      · simp only [Function.update_noteq e] at hopen ⊢
        exact hr i hlt hopen

theorem callStep_handles (st st1 : FS) (op : Call) (hr : HandlesResolve st)
    (hshort : op.shortName) (h : callStep st op = .ok st1) : HandlesResolve st1 := by
  cases op with
  | create filename =>
    simp only [callStep] at h
    have := Res.ok.inj h
    subst this
    exact create_handles st filename hr
  | delete filename =>
    simp only [callStep] at h
    obtain ⟨r, hret, h1⟩ := Res.bind_eq_ok _ _ _ h
    have := Res.ok.inj h1
    subst this
    exact delete_handles st filename r hr hshort hret
  | openFile filename =>
    simp only [callStep] at h
    obtain ⟨r, hret, h1⟩ := Res.bind_eq_ok _ _ _ h
    have := Res.ok.inj h1
    subst this
    exact open_handles st filename r hr hshort hret
  | close fd =>
    simp only [callStep] at h
    have := Res.ok.inj h
    subst this
    exact close_handles st fd hr
  | lseek fd offset =>
    simp only [callStep] at h
    obtain ⟨r, hret, h1⟩ := Res.bind_eq_ok _ _ _ h
    have := Res.ok.inj h1
    subst this
    exact lseek_handles st fd offset r hr hret

theorem runCalls_handles (ops : List Call) :
    ∀ (st st' : FS), HandlesResolve st → (∀ op ∈ ops, op.shortName) →
      runCalls st ops = .ok st' → HandlesResolve st' := by
  induction ops with
  | nil =>
    intro st st' hr _ hrun
    simp only [runCalls] at hrun
    have := Res.ok.inj hrun
    subst this
    exact hr
  | cons op ops ih =>
    intro st st' hr hshort hrun
    simp only [runCalls] at hrun
    obtain ⟨st1, h1, h2⟩ := Res.bind_eq_ok _ _ _ hrun
    exact ih st1 st'
      (callStep_handles st st1 op hr (hshort op (List.mem_cons_self _ _)) h1)
      (fun o ho => hshort o (List.mem_cons_of_mem _ ho)) h2

/-- C22: start from a state whose 32 descriptor slots are all closed and run any
finite sequence of `fs_create`, `fs_delete`, `fs_open`, `fs_close` and
`fs_lseek` calls with names of at most 15 characters.  In the state reached,
the name held by every open slot is the name of a root directory entry that is
in use: the lookup loop shared by `fs_stat`, `fs_lseek`, `fs_read` and
`fs_write` ends with that entry's index, never with `fileIndex == -1`, and
`fs_stat` returns the entry's size without indexing the directory at -1. -/
theorem open_handles_resolve (st : FS) (ops : List Call) (st' : FS)
    (hclosed : ∀ i, i < MAX_OPEN_FILE_DESCRIPTORS →
      isEmptyName (st.openedFiles i).filename = true)
    (hshort : ∀ op ∈ ops, op.shortName)
    (hrun : runCalls st ops = .ok st') :
    ∀ fd : Nat, fd < MAX_OPEN_FILE_DESCRIPTORS →
      isEmptyName (st'.openedFiles fd).filename = false →
      ∃ fileIndex, findFileFd st'.root st'.openedFiles fd = .ok (some fileIndex) ∧
        InUse st' fileIndex ∧
        cstr (st'.root fileIndex).filename = cstr (st'.openedFiles fd).filename ∧
        fs_stat st' (fd : Int) = .ok (toInt32 (st'.root fileIndex).size) := by
  have h0 : HandlesResolve st := by
    intro fd hfd hopen
    rw [hclosed fd hfd] at hopen
    exact absurd hopen (by decide)
  have hinv := runCalls_handles ops st st' h0 hshort hrun
  intro fd hfd hopen
  obtain ⟨hl, j, hj, hm⟩ := hinv fd hfd hopen
  obtain ⟨fi, hfi⟩ := findName_of_match st'.root _ j hj.1 hm
  obtain ⟨hlt, hcmp⟩ := findName_mem st'.root _ fi hfi
  have hlook : findFileFd st'.root st'.openedFiles fd = .ok (some fi) := by
    rw [findFileFd_eq st'.root st'.openedFiles fd hfd hl, hfi]
  have hnn : cstr (st'.root fi).filename ≠ [] := by
    rw [← hcmp]
    exact cstr_ne_nil_of_not_isEmptyName _ hopen
  refine ⟨fi, hlook, ⟨hlt, isEmptyName_eq_false_of_cstr _ hnn⟩, hcmp.symm, ?_⟩
  have hb : badFd st' (fd : Int) = false := by
    apply badFd_eq_false
    unfold MAX_OPEN_FILE_DESCRIPTORS at hfd
    rintro (h | h | h)
    · omega
    · omega
    · rw [Int.toNat_ofNat, hopen] at h
      exact absurd h (by decide)
  simp only [fs_stat, hb, Int.toNat_ofNat, hlook, Res.bind]
  rfl

theorem open_handles_resolve_witness :
    ∃ st', runCalls emptyVolume
        [.create [97], .openFile [97], .create [98], .delete [98], .lseek 0 0] = .ok st' ∧
      isEmptyName (st'.openedFiles 0).filename = false ∧
      ∃ fileIndex, findFileFd st'.root st'.openedFiles 0 = .ok (some fileIndex) ∧
        InUse st' fileIndex ∧
        cstr (st'.root fileIndex).filename = cstr (st'.openedFiles 0).filename ∧
        fs_stat st' ((0 : Nat) : Int) = .ok (toInt32 (st'.root fileIndex).size) := by
  have hev : (runCalls emptyVolume
      [.create [97], .openFile [97], .create [98], .delete [98], .lseek 0 0]).val?.map
      (fun st => isEmptyName (st.openedFiles 0).filename) = some false := by decide
  cases h : runCalls emptyVolume
      [.create [97], .openFile [97], .create [98], .delete [98], .lseek 0 0] with
  | ok st' =>
    rw [h] at hev
    have hopen : isEmptyName (st'.openedFiles 0).filename = false := by
      simpa [Res.val?] using hev
    refine ⟨st', rfl, hopen, ?_⟩
    exact open_handles_resolve emptyVolume
      [.create [97], .openFile [97], .create [98], .delete [98], .lseek 0 0] st'
      (fun _ _ => rfl)
      (by
        intro op hop
        simp only [List.mem_cons, List.mem_singleton, List.not_mem_nil, or_false] at hop
        rcases hop with rfl | rfl | rfl | rfl | rfl <;>
          first | exact trivial | (show (cstr _).length ≤ 15; decide))
      h 0 (by decide) hopen
  | hang => rw [h] at hev; exact absurd hev (by simp [Res.val?])
  | fault => rw [h] at hev; exact absurd hev (by simp [Res.val?])

end FatFs
